import Mathlib

/-!
Verification of the petabuf paged spool engine (petabuf.c).

The program is a single-threaded streaming pipe buffer.  We give a shallow
embedding of its state and main loop:

* machine integers become `Nat` (all quantities involved stay far below
  `2^32` / `2^64`, as maintained by the invariants proved below);
* the per-slot `uint8_t` state bitset becomes a `Nat` holding the two bits
  `PAGE_MAPPED` and `PAGE_ONDISK` (bitwise ops as in the source; the C
  complement `~b` on `uint8_t` is `255 - b`);
* the environment's nondeterminism (select readiness, byte counts returned
  by read/write, success of anonymous mmap) is an oracle per iteration;
* fatal paths (`errx "out of pages"`) and the `assert`s in the page store
  are `Except` errors, so that "the assertion never fires" is provable;
* stdin is a byte function `S : Nat → Nat` together with a length `slen`
  (a read returns 0, latching end of input, exactly when all `slen` bytes
  have been consumed); stdout is the written-byte function `out` with
  length `nout`;
* spool-file existence is tracked in `filesExist` (created by the spill
  path of `page_pin`, unlinked by `page_free`);
* the environment-failure exits that this model does not take (I/O errors,
  failures of disk mmap/open/ftruncate, select failure) are assumed absent:
  they kill the process and no claim is about them.

Cursor naming follows the source: `rpos` is the intake cursor (bytes read
from stdin land at `rpos`), `wpos` is the drain cursor (bytes at `wpos`
are written to stdout).  The spec names these the other way around.
-/

set_option maxRecDepth 8192

namespace Petabuf

/-- `PAGESZ` from petabuf.c: `(1 << 24)`, 16 MiB. -/
def PAGESZ : Nat := 1 <<< 24

/-- `TABLESZ` from petabuf.c: `(1 << 26)`, 1 PiB worth of pages. -/
def TABLESZ : Nat := 1 <<< 26

/-- `PAGE_MAPPED` state bit. -/
def PAGE_MAPPED : Nat := 1

/-- `PAGE_ONDISK` state bit. -/
def PAGE_ONDISK : Nat := 2

/-- `struct paddr`: a page index plus an offset within the page. -/
structure Paddr where
  idx : Nat
  off : Nat
deriving DecidableEq, Repr

/-- Flat byte position of a cursor. -/
def Paddr.pos (p : Paddr) : Nat := p.idx * PAGESZ + p.off

/-- Lexicographic order on `(idx, off)`, as used by the spec. -/
def lexLe (a b : Paddr) : Prop :=
  a.idx < b.idx ∨ (a.idx = b.idx ∧ a.off ≤ b.off)

instance (a b : Paddr) : Decidable (lexLe a b) := by
  unfold lexLe; infer_instance

/-- Reasons the modelled process aborts (exit status 1). -/
inductive Err where
  /-- `errx(1, "out of pages")` in the intake page-crossing. -/
  | outOfPages
  /-- `assert(idx < TABLESZ)` at the top of `page_pin`. -/
  | assertPinIdx
  /-- `assert(idx < TABLESZ)` at the top of `page_unpin`. -/
  | assertUnpinIdx
  /-- `assert(idx < TABLESZ)` at the top of `page_free`. -/
  | assertFreeIdx
  /-- `assert(!(states[idx] & PAGE_MAPPED))` in the on-disk branch of `page_free`. -/
  | assertFreeMapped
deriving DecidableEq, Repr

/-- Pointwise update of a function at one index. -/
def updf {α : Type} (f : Nat → α) (i : Nat) (a : α) : Nat → α :=
  fun j => if j = i then a else f j

/-- The global mutable state of petabuf.c, plus the modelled I/O streams. -/
structure St where
  /-- per-slot state bitset (`states[]`). -/
  states : Nat → Nat
  /-- per-slot page contents (`pages[]` dereferenced); only meaningful while
      the slot holds live buffered data. -/
  pages : Nat → Nat → Nat
  /-- whether the spool file for a slot currently exists on disk. -/
  filesExist : Nat → Bool
  /-- counter `nmapped`. -/
  nmapped : Nat
  /-- counter `nondisk`. -/
  nondisk : Nat
  /-- counter `nfree` (remaining in-memory page budget). -/
  nfree : Nat
  /-- whether the headroom reserve allocation is still held. -/
  headroom : Bool
  /-- intake cursor `rpos` (named write cursor by the spec). -/
  rpos : Paddr
  /-- drain cursor `wpos` (named read cursor by the spec). -/
  wpos : Paddr
  /-- loop variable `ntoread`. -/
  ntoread : Nat
  /-- loop variable `ntowrite`. -/
  ntowrite : Nat
  /-- bytes consumed from stdin so far. -/
  nin : Nat
  /-- bytes written to stdout so far (as a function of output position). -/
  out : Nat → Nat
  /-- number of bytes written to stdout so far. -/
  nout : Nat
  /-- ghost latch: a read has returned 0 (end of input). -/
  eof : Bool

/-- The spill path of `page_pin` ("new page on disk"): create the spool
file, extend it to `PAGESZ` (hence zero-filled), map it shared; set
`PAGE_MAPPED | PAGE_ONDISK`, bump `nmapped` and `nondisk`. -/
def pinOndisk (idx : Nat) (st : St) : St :=
  { st with
    pages := updf st.pages idx (fun _ => 0),
    filesExist := updf st.filesExist idx true,
    states := updf st.states idx (st.states idx ||| (PAGE_MAPPED ||| PAGE_ONDISK)),
    nmapped := st.nmapped + 1,
    nondisk := st.nondisk + 1 }

/-- `page_pin(idx)`: ensure the slot is mapped.  `anonOk` says whether the
anonymous `mmap` of the "new page in memory" path would succeed (its
failure with `ENOMEM` is the recoverable out-of-memory condition:
`nfree` collapses to 0, the headroom reserve is released, and control
falls through to the spill path). -/
def page_pin (idx : Nat) (anonOk : Bool) (st : St) : Except Err St :=
  if idx < TABLESZ then
    if st.states idx &&& PAGE_MAPPED ≠ 0 then .ok st
    else if st.states idx &&& PAGE_ONDISK ≠ 0 then
      -- existing page on disk: re-open and map it (contents preserved)
      .ok { st with
              states := updf st.states idx (st.states idx ||| PAGE_MAPPED),
              nmapped := st.nmapped + 1 }
    else if st.nfree ≠ 0 then
      if anonOk then
        -- new page in memory (anonymous mapping, zero-filled)
        .ok { st with
                pages := updf st.pages idx (fun _ => 0),
                states := updf st.states idx (st.states idx ||| PAGE_MAPPED),
                nmapped := st.nmapped + 1,
                nfree := st.nfree - 1 }
      else
        -- ENOMEM: reset nfree, release headroom, goto ondisk
        .ok (pinOndisk idx { st with nfree := 0, headroom := false })
    else .ok (pinOndisk idx st)
  else .error .assertPinIdx

/-- `page_unpin(idx)`: release the mapping of a disk-backed page (no-op on
unmapped slots and on memory-only pages). -/
def page_unpin (idx : Nat) (st : St) : Except Err St :=
  if idx < TABLESZ then
    if st.states idx &&& PAGE_MAPPED = 0 then .ok st
    else if st.states idx &&& PAGE_ONDISK ≠ 0 then
      .ok { st with
              states := updf st.states idx (st.states idx &&& (255 - PAGE_MAPPED)),
              nmapped := st.nmapped - 1 }
    else .ok st
  else .error .assertUnpinIdx

/-- `page_free(idx)`: release the slot entirely; unlink the spool file of a
disk-backed slot (asserting it is not mapped), unmap a memory-only page
and replenish `nfree`. -/
def page_free (idx : Nat) (st : St) : Except Err St :=
  if idx < TABLESZ then
    if st.states idx &&& PAGE_ONDISK ≠ 0 then
      if st.states idx &&& PAGE_MAPPED ≠ 0 then .error .assertFreeMapped
      else
        .ok { st with
                filesExist := updf st.filesExist idx false,
                states := updf st.states idx (st.states idx &&& (255 - PAGE_ONDISK)),
                nondisk := st.nondisk - 1 }
    else if st.states idx &&& PAGE_MAPPED ≠ 0 then
      .ok { st with
              states := updf st.states idx (st.states idx &&& (255 - PAGE_MAPPED)),
              nmapped := st.nmapped - 1,
              nfree := st.nfree + 1 }
    else .ok st
  else .error .assertFreeIdx

/-- Environment nondeterminism for one loop iteration: whether select
reports stdin/stdout ready, how many bytes the read/write syscalls
transfer (clamped to the legal ranges), and whether an anonymous mmap
issued by `page_pin` during the intake (`R`) or drain (`W`) crossing
would succeed. -/
structure Orac where
  rdReady : Bool
  wrReady : Bool
  rdN : Nat
  wrN : Nat
  mmapOkR : Bool
  mmapOkW : Bool

/-- The byte count returned by a successful non-EOF `read`: some `k` with
`1 ≤ k ≤ min ntoread (remaining input)`, chosen by the oracle. -/
def rdK (o : Orac) (slen : Nat) (st : St) : Nat :=
  min (max o.rdN 1) (min st.ntoread (slen - st.nin))

/-- The byte count returned by a successful `write`: some `k` with
`1 ≤ k ≤ ntowrite`, chosen by the oracle. -/
def wrK (o : Orac) (st : St) : Nat :=
  min (max o.wrN 1) st.ntowrite

/-- The stdin-readable arm of the loop body (petabuf.c lines 143-164):
read up to `ntoread` bytes at `rpos`; a result of 0 (input exhausted)
latches end of input by zeroing `ntoread`; otherwise advance `rpos`,
crossing pages with unpin (skipped when the cursors share the page),
the out-of-pages check, and pin of the next page. -/
def readStep (S : Nat → Nat) (slen : Nat) (o : Orac) (st : St) : Except Err St :=
  if st.nin = slen then
    .ok { st with ntoread := 0, eof := true }
  else
    let k := rdK o slen st
    let pages1 := fun i j =>
      if i = st.rpos.idx ∧ st.rpos.off ≤ j ∧ j < st.rpos.off + k
      then S (st.nin + (j - st.rpos.off)) else st.pages i j
    let st1 := { st with pages := pages1, nin := st.nin + k }
    let off1 := st.rpos.off + k
    if off1 = PAGESZ then
      match (if st.rpos.idx ≠ st.wpos.idx then page_unpin st.rpos.idx st1 else .ok st1) with
      | .error e => .error e
      | .ok st2 =>
        if st.rpos.idx + 1 ≥ TABLESZ then .error .outOfPages
        else
          match page_pin (st.rpos.idx + 1) o.mmapOkR st2 with
          | .error e => .error e
          | .ok st3 => .ok { st3 with rpos := ⟨st.rpos.idx + 1, 0⟩, ntoread := PAGESZ }
    else
      .ok { st1 with rpos := ⟨st.rpos.idx, off1⟩, ntoread := PAGESZ - off1 }

/-- The stdout-writable arm of the loop body (petabuf.c lines 166-180):
write up to `ntowrite` bytes from `wpos`; advance `wpos`, crossing
pages with unpin, free, and pin of the next page. -/
def writeStep (o : Orac) (st : St) : Except Err St :=
  let k := wrK o st
  let out1 := fun j =>
    if st.nout ≤ j ∧ j < st.nout + k
    then st.pages st.wpos.idx (st.wpos.off + (j - st.nout)) else st.out j
  let st1 := { st with out := out1, nout := st.nout + k }
  let off1 := st.wpos.off + k
  if off1 = PAGESZ then
    match page_unpin st.wpos.idx st1 with
    | .error e => .error e
    | .ok st2 =>
      match page_free st.wpos.idx st2 with
      | .error e => .error e
      | .ok st3 =>
        match page_pin (st.wpos.idx + 1) o.mmapOkW st3 with
        | .error e => .error e
        | .ok st4 => .ok { st4 with wpos := ⟨st.wpos.idx + 1, 0⟩ }
  else
    .ok { st1 with wpos := ⟨st.wpos.idx, off1⟩ }

/-- The recomputation of `ntowrite` at the end of each iteration
(petabuf.c lines 182-183). -/
def recompNtowrite (st : St) : St :=
  { st with
    ntowrite := (if st.wpos.idx = st.rpos.idx then st.rpos.off else PAGESZ) - st.wpos.off }

/-- One iteration of the main loop (petabuf.c lines 127-184).  stdin is
serviced iff it was placed in the read set (`ntoread` nonzero) and
select reported it ready; likewise stdout.  (`readStep` never changes
`ntowrite`, so testing the pre-iteration value is the same as testing
the value at the write arm.) -/
def iter (S : Nat → Nat) (slen : Nat) (o : Orac) (st : St) : Except Err St :=
  match (if st.ntoread ≠ 0 ∧ o.rdReady then readStep S slen o st else .ok st) with
  | .error e => .error e
  | .ok st1 =>
    match (if st.ntowrite ≠ 0 ∧ o.wrReady then writeStep o st1 else .ok st1) with
    | .error e => .error e
    | .ok st2 => .ok (recompNtowrite st2)

/-- Run the loop under a finite schedule of oracles; stops early when the
loop condition `ntoread || ntowrite` becomes false. -/
def run (S : Nat → Nat) (slen : Nat) : List Orac → St → Except Err St
  | [], st => .ok st
  | o :: os, st =>
    if st.ntoread = 0 ∧ st.ntowrite = 0 then .ok st
    else
      match iter S slen o st with
      | .error e => .error e
      | .ok st' => run S slen os st'

/-- The state at the head of `main`'s loop preamble: empty table, budget
`memsize / PAGESZ / 2` pages, headroom held, both cursors at `{0, 0}`,
`ntoread = PAGESZ`, `ntowrite = 0`. -/
def stInit (memsize : Nat) : St :=
  { states := fun _ => 0,
    pages := fun _ _ => 0,
    filesExist := fun _ => false,
    nmapped := 0,
    nondisk := 0,
    nfree := memsize / PAGESZ / 2,
    headroom := true,
    rpos := ⟨0, 0⟩,
    wpos := ⟨0, 0⟩,
    ntoread := PAGESZ,
    ntowrite := 0,
    nin := 0,
    out := fun _ => 0,
    nout := 0,
    eof := false }

/-- `main` after argument handling: pin page 0, then run the loop. -/
def mainRun (S : Nat → Nat) (slen memsize : Nat) (a0 : Bool) (os : List Orac) :
    Except Err St :=
  match page_pin 0 a0 (stInit memsize) with
  | .error e => .error e
  | .ok st => run S slen os st

/-- The program's exit status: `some 1` on a fatal error, `some 0` once the
loop condition is false (`return 0`), `none` while still looping. -/
def mainExit (S : Nat → Nat) (slen memsize : Nat) (a0 : Bool) (os : List Orac) :
    Option Nat :=
  match mainRun S slen memsize a0 os with
  | .error _ => some 1
  | .ok st => if st.ntoread = 0 ∧ st.ntowrite = 0 then some 0 else none

/-- States at loop-iteration boundaries: the state after the initial
`page_pin(0)`, and anything reachable from it by whole iterations taken
while the loop condition holds. -/
inductive Reachable (S : Nat → Nat) (slen memsize : Nat) (a0 : Bool) : St → Prop
  | init : ∀ st, page_pin 0 a0 (stInit memsize) = .ok st → Reachable S slen memsize a0 st
  | step : ∀ st o st', Reachable S slen memsize a0 st →
      ¬(st.ntoread = 0 ∧ st.ntowrite = 0) →
      iter S slen o st = .ok st' → Reachable S slen memsize a0 st'

/-! ### Argument handling (petabuf.c lines 92-97)

`main` makes a single `getopt(argc, argv, "")` call; a non-`-1` result
(any option is unknown, since the option string is empty) exits 1 at once,
without the usage line.  Only leftover positional arguments
(`argc != optind`) print the usage banner.  Argument strings are modelled
as `List Char`. -/

/-- Result of the single `getopt(argc, argv, "")` call, modelled from the
POSIX contract: `(returned value, optind)`.  `args` is `argv[1..]`, so
`optind` starts at 1.  With an empty option string every option
character is unknown, so an option element yields `'?'` (63); a bare
`"--"` is consumed and scanning stops; a non-option element (including
a bare `"-"`) stops scanning at once. -/
def getoptFirst (args : List (List Char)) : Int × Nat :=
  match args with
  | [] => (-1, 1)
  | a :: _ =>
    if a = ['-', '-'] then (-1, 2)
    else
      match a with
      | '-' :: _ :: _ => (63, 1)
      | _ => (-1, 1)

/-- Outcome of the argument-handling prologue. -/
structure ArgResult where
  /-- `some code` when `main` returns before the buffering loop. -/
  exit : Option Nat
  /-- whether the usage line was written to stderr. -/
  usagePrinted : Bool
  /-- bytes written to stdout by the prologue (always 0). -/
  stdoutBytes : Nat
deriving DecidableEq, Repr

/-- petabuf.c lines 92-97: reject any recognized-as-option argument
(exit 1, silently but for getopt's own diagnostic), then reject leftover
positional arguments with the usage line (`argc = 1 + args.length`). -/
def mainArgs (args : List (List Char)) : ArgResult :=
  let g := getoptFirst args
  if g.1 ≠ -1 then { exit := some 1, usagePrinted := false, stdoutBytes := 0 }
  else if args.length + 1 ≠ g.2 then { exit := some 1, usagePrinted := true, stdoutBytes := 0 }
  else { exit := none, usagePrinted := false, stdoutBytes := 0 }

/-! ### Basic facts about the constants, `updf`, positions, and the bitset -/

theorem PAGESZ_pos : 0 < PAGESZ := by decide

theorem TABLESZ_pos : 0 < TABLESZ := by decide

@[simp] theorem updf_self {α : Type} (f : Nat → α) (i : Nat) (a : α) :
    updf f i a i = a := by
  simp [updf]

theorem updf_ne {α : Type} (f : Nat → α) (i j : Nat) (a : α) (h : j ≠ i) :
    updf f i a j = f j := by
  simp [updf, h]

theorem updf_updf_same {α : Type} (f : Nat → α) (i : Nat) (a b : α) :
    updf (updf f i a) i b = updf f i b := by
  funext j
  by_cases h : j = i
  · subst h; simp
  · simp [updf, h]

@[simp] theorem land_one_0 : (0 : Nat) &&& 1 = 0 := rfl
@[simp] theorem land_one_1 : (1 : Nat) &&& 1 = 1 := rfl
@[simp] theorem land_one_2 : (2 : Nat) &&& 1 = 0 := rfl
@[simp] theorem land_one_3 : (3 : Nat) &&& 1 = 1 := rfl
@[simp] theorem land_two_0 : (0 : Nat) &&& 2 = 0 := rfl
@[simp] theorem land_two_1 : (1 : Nat) &&& 2 = 0 := rfl
@[simp] theorem land_two_2 : (2 : Nat) &&& 2 = 2 := rfl
@[simp] theorem land_two_3 : (3 : Nat) &&& 2 = 2 := rfl
@[simp] theorem lor_one_0 : (0 : Nat) ||| 1 = 1 := rfl
@[simp] theorem lor_one_2 : (2 : Nat) ||| 1 = 3 := rfl
@[simp] theorem lor_three_0 : (0 : Nat) ||| 3 = 3 := rfl
@[simp] theorem land_254_1 : (1 : Nat) &&& 254 = 0 := rfl
@[simp] theorem land_254_3 : (3 : Nat) &&& 254 = 2 := rfl
@[simp] theorem land_253_2 : (2 : Nat) &&& 253 = 0 := rfl
@[simp] theorem land_253_3 : (3 : Nat) &&& 253 = 1 := rfl

/-- A slot bitset over {MAPPED, ONDISK} takes one of four values. -/
theorem states_cases {s : Nat} (h : s < 4) : s = 0 ∨ s = 1 ∨ s = 2 ∨ s = 3 := by
  omega

theorem pos_div {q : Nat} (i : Nat) (h : q < PAGESZ) :
    (i * PAGESZ + q) / PAGESZ = i := by
  rw [Nat.mul_comm, Nat.mul_add_div PAGESZ_pos, Nat.div_eq_of_lt h, Nat.add_zero]

theorem pos_mod {q : Nat} (i : Nat) (h : q < PAGESZ) :
    (i * PAGESZ + q) % PAGESZ = q := by
  rw [Nat.mul_comm, Nat.mul_add_mod, Nat.mod_eq_of_lt h]

theorem idx_mul_le {a b : Nat} (h : a < b) :
    a * PAGESZ + PAGESZ ≤ b * PAGESZ := by
  calc a * PAGESZ + PAGESZ = (a + 1) * PAGESZ := by ring
  _ ≤ b * PAGESZ := Nat.mul_le_mul_right _ h

theorem idx_le_of_pos_le {a b : Paddr} (h : a.pos ≤ b.pos) (hb : b.off < PAGESZ) :
    a.idx ≤ b.idx := by
  by_contra hc
  push_neg at hc
  have h3 := idx_mul_le hc
  unfold Paddr.pos at h
  omega

theorem pos_lt_pos_of_idx_lt {a b : Paddr} (h : a.idx < b.idx) (ha : a.off < PAGESZ) :
    a.pos < b.pos := by
  have h3 := idx_mul_le h
  unfold Paddr.pos
  omega

theorem lexLe_of_pos_le {a b : Paddr} (h : a.pos ≤ b.pos) (hb : b.off < PAGESZ) :
    lexLe a b := by
  rcases lt_trichotomy a.idx b.idx with hlt | heq | hgt
  · exact Or.inl hlt
  · refine Or.inr ⟨heq, ?_⟩
    unfold Paddr.pos at h
    rw [heq] at h
    omega
  · exact absurd h (Nat.not_le.mpr (pos_lt_pos_of_idx_lt hgt hb))

/-! ### Cardinality bookkeeping for the counter invariants -/

theorem filter_range_congr {p q : Nat → Prop} [DecidablePred p] [DecidablePred q]
    {N : Nat} (h : ∀ i, i < N → (p i ↔ q i)) :
    (Finset.range N).filter p = (Finset.range N).filter q := by
  ext j
  simp only [Finset.mem_filter, Finset.mem_range]
  constructor
  · rintro ⟨hj, hp⟩; exact ⟨hj, (h j hj).mp hp⟩
  · rintro ⟨hj, hq⟩; exact ⟨hj, (h j hj).mpr hq⟩

theorem card_filter_flip_on {f : Nat → Nat} {P : Nat → Prop} [DecidablePred P]
    {i v N : Nat} (hiN : i < N) (hnew : P v) (hold : ¬P (f i)) :
    ((Finset.range N).filter (fun j => P (updf f i v j))).card
      = ((Finset.range N).filter (fun j => P (f j))).card + 1 := by
  have hins : (Finset.range N).filter (fun j => P (updf f i v j))
      = insert i ((Finset.range N).filter (fun j => P (f j))) := by
    ext j
    by_cases hj : j = i
    · subst hj
      simp [Finset.mem_filter, Finset.mem_range, hiN, hnew]
    · simp only [Finset.mem_filter, Finset.mem_range, Finset.mem_insert, hj,
        updf_ne f i j v hj, false_or]
  rw [hins, Finset.card_insert_of_not_mem]
  simp [Finset.mem_filter, hold]

theorem card_filter_flip_off {f : Nat → Nat} {P : Nat → Prop} [DecidablePred P]
    {i v N : Nat} (hiN : i < N) (hnew : ¬P v) (hold : P (f i)) :
    ((Finset.range N).filter (fun j => P (f j))).card
      = ((Finset.range N).filter (fun j => P (updf f i v j))).card + 1 := by
  have hins : (Finset.range N).filter (fun j => P (f j))
      = insert i ((Finset.range N).filter (fun j => P (updf f i v j))) := by
    ext j
    by_cases hj : j = i
    · subst hj
      simp [Finset.mem_filter, Finset.mem_range, hiN, hold]
    · simp only [Finset.mem_filter, Finset.mem_range, Finset.mem_insert, hj,
        updf_ne f i j v hj, false_or]
  rw [hins, Finset.card_insert_of_not_mem]
  simp [Finset.mem_filter, hnew]

theorem card_filter_keep {f : Nat → Nat} {P : Nat → Prop} [DecidablePred P]
    {i v : Nat} (N : Nat) (h : P v ↔ P (f i)) :
    ((Finset.range N).filter (fun j => P (updf f i v j))).card
      = ((Finset.range N).filter (fun j => P (f j))).card := by
  congr 1
  apply filter_range_congr
  intro j _
  by_cases hj : j = i
  · subst hj; simpa using h
  · rw [updf_ne f i j v hj]

/-! ### The loop invariant

`InvC` holds at every point where the cursors, counters, table and streams
are consistent; it does not constrain `ntowrite` (which is recomputed at
the end of each iteration).  `Inv` additionally ties `ntowrite` to the
cursors; it holds at every loop-iteration boundary. -/

/-- The cursor-independent part of the invariant: slot bitsets are over the
two defined bits, spool-file existence coincides with `PAGE_ONDISK`, and
the counters are the population counts over the table. -/
structure TableInv (st : St) : Prop where
  states_lt : ∀ i, st.states i < 4
  files_iff : ∀ i, st.filesExist i = true ↔ st.states i &&& PAGE_ONDISK ≠ 0
  nmapped_eq : st.nmapped =
      ((Finset.range TABLESZ).filter (fun i => st.states i &&& PAGE_MAPPED ≠ 0)).card
  nondisk_eq : st.nondisk =
      ((Finset.range TABLESZ).filter (fun i => st.states i &&& PAGE_ONDISK ≠ 0)).card

theorem TableInv.copy {st st' : St} (h : TableInv st)
    (h1 : st'.states = st.states) (h2 : st'.filesExist = st.filesExist)
    (h3 : st'.nmapped = st.nmapped) (h4 : st'.nondisk = st.nondisk) :
    TableInv st' := by
  constructor
  · rw [h1]; exact h.states_lt
  · rw [h1, h2]; exact h.files_iff
  · rw [h1, h3]; exact h.nmapped_eq
  · rw [h1, h4]; exact h.nondisk_eq

structure InvC (S : Nat → Nat) (slen : Nat) (st : St) : Prop where
  table : TableInv st
  ridx_lt : st.rpos.idx < TABLESZ
  roff_lt : st.rpos.off < PAGESZ
  woff_lt : st.wpos.off < PAGESZ
  wr_le : st.wpos.pos ≤ st.rpos.pos
  ntoread_eq : st.ntoread = if st.eof then 0 else PAGESZ - st.rpos.off
  eof_nin : st.eof = true → st.nin = slen
  nin_eq : st.nin = st.rpos.pos
  nout_eq : st.nout = st.wpos.pos
  nin_le : st.nin ≤ slen
  mapped_iff : ∀ i, st.states i &&& PAGE_MAPPED ≠ 0 ↔
      (st.wpos.idx ≤ i ∧ i ≤ st.rpos.idx ∧
        (st.states i &&& PAGE_ONDISK = 0 ∨ i = st.wpos.idx ∨ i = st.rpos.idx))
  ondisk_range : ∀ i, st.states i &&& PAGE_ONDISK ≠ 0 →
      st.wpos.idx ≤ i ∧ i ≤ st.rpos.idx
  outPref : ∀ j, j < st.nout → st.out j = S j
  pendingEq : ∀ p, st.wpos.pos ≤ p → p < st.rpos.pos →
      st.pages (p / PAGESZ) (p % PAGESZ) = S p

structure Inv (S : Nat → Nat) (slen : Nat) (st : St) extends InvC S slen st : Prop where
  ntowrite_eq : st.ntowrite =
      (if st.wpos.idx = st.rpos.idx then st.rpos.off else PAGESZ) - st.wpos.off

theorem InvC.widx_le {S : Nat → Nat} {slen : Nat} {st : St} (h : InvC S slen st) :
    st.wpos.idx ≤ st.rpos.idx :=
  idx_le_of_pos_le h.wr_le h.roff_lt

theorem InvC.states_eq_zero_of_gt {S : Nat → Nat} {slen : Nat} {st : St}
    (h : InvC S slen st) {i : Nat} (hi : st.rpos.idx < i) : st.states i = 0 := by
  rcases states_cases (h.table.states_lt i) with h0 | h0 | h0 | h0
  · exact h0
  · have hm := (h.mapped_iff i).mp (by rw [h0]; decide)
    omega
  · have ho := h.ondisk_range i (by rw [h0]; decide)
    omega
  · have ho := h.ondisk_range i (by rw [h0]; decide)
    omega

theorem InvC.states_eq_zero_of_lt {S : Nat → Nat} {slen : Nat} {st : St}
    (h : InvC S slen st) {i : Nat} (hi : i < st.wpos.idx) : st.states i = 0 := by
  rcases states_cases (h.table.states_lt i) with h0 | h0 | h0 | h0
  · exact h0
  · have hm := (h.mapped_iff i).mp (by rw [h0]; decide)
    omega
  · have ho := h.ondisk_range i (by rw [h0]; decide)
    omega
  · have ho := h.ondisk_range i (by rw [h0]; decide)
    omega

theorem InvC.mapped_r {S : Nat → Nat} {slen : Nat} {st : St} (h : InvC S slen st) :
    st.states st.rpos.idx &&& PAGE_MAPPED ≠ 0 :=
  (h.mapped_iff st.rpos.idx).mpr ⟨h.widx_le, le_refl _, Or.inr (Or.inr rfl)⟩

theorem InvC.mapped_w {S : Nat → Nat} {slen : Nat} {st : St} (h : InvC S slen st) :
    st.states st.wpos.idx &&& PAGE_MAPPED ≠ 0 :=
  (h.mapped_iff st.wpos.idx).mpr ⟨le_refl _, h.widx_le, Or.inr (Or.inl rfl)⟩

/-! ### Evaluation lemmas for the page-store operations -/

theorem page_pin_mapped {idx : Nat} {t : St} (a : Bool) (hlt : idx < TABLESZ)
    (h : t.states idx &&& PAGE_MAPPED ≠ 0) : page_pin idx a t = .ok t := by
  simp [page_pin, hlt, h]

theorem page_pin_remap {idx : Nat} {t : St} (a : Bool) (hlt : idx < TABLESZ)
    (h1 : t.states idx &&& PAGE_MAPPED = 0) (h2 : t.states idx &&& PAGE_ONDISK ≠ 0) :
    page_pin idx a t = .ok { t with
      states := updf t.states idx (t.states idx ||| PAGE_MAPPED),
      nmapped := t.nmapped + 1 } := by
  simp [page_pin, hlt, h1, h2]

theorem page_pin_anon {idx : Nat} {t : St} (hlt : idx < TABLESZ)
    (h0 : t.states idx = 0) (hf : t.nfree ≠ 0) :
    page_pin idx true t = .ok { t with
      pages := updf t.pages idx (fun _ => 0),
      states := updf t.states idx 1,
      nmapped := t.nmapped + 1,
      nfree := t.nfree - 1 } := by
  simp [page_pin, hlt, h0, hf, PAGE_MAPPED, PAGE_ONDISK]

theorem page_pin_enomem {idx : Nat} {t : St} (hlt : idx < TABLESZ)
    (h0 : t.states idx = 0) (hf : t.nfree ≠ 0) :
    page_pin idx false t = .ok { t with
      pages := updf t.pages idx (fun _ => 0),
      filesExist := updf t.filesExist idx true,
      states := updf t.states idx 3,
      nmapped := t.nmapped + 1,
      nondisk := t.nondisk + 1,
      nfree := 0,
      headroom := false } := by
  simp [page_pin, pinOndisk, hlt, h0, hf, PAGE_MAPPED, PAGE_ONDISK]

theorem page_pin_spill {idx : Nat} {t : St} (a : Bool) (hlt : idx < TABLESZ)
    (h0 : t.states idx = 0) (hf : t.nfree = 0) :
    page_pin idx a t = .ok { t with
      pages := updf t.pages idx (fun _ => 0),
      filesExist := updf t.filesExist idx true,
      states := updf t.states idx 3,
      nmapped := t.nmapped + 1,
      nondisk := t.nondisk + 1 } := by
  simp [page_pin, pinOndisk, hlt, h0, hf, PAGE_MAPPED, PAGE_ONDISK]

theorem page_unpin_unmapped {idx : Nat} {t : St} (hlt : idx < TABLESZ)
    (h : t.states idx &&& PAGE_MAPPED = 0) : page_unpin idx t = .ok t := by
  simp [page_unpin, hlt, h]

theorem page_unpin_mem {idx : Nat} {t : St} (hlt : idx < TABLESZ)
    (h1 : t.states idx &&& PAGE_MAPPED ≠ 0) (h2 : t.states idx &&& PAGE_ONDISK = 0) :
    page_unpin idx t = .ok t := by
  simp [page_unpin, hlt, h1, h2]

theorem page_unpin_disk {idx : Nat} {t : St} (hlt : idx < TABLESZ)
    (h1 : t.states idx &&& PAGE_MAPPED ≠ 0) (h2 : t.states idx &&& PAGE_ONDISK ≠ 0) :
    page_unpin idx t = .ok { t with
      states := updf t.states idx (t.states idx &&& 254),
      nmapped := t.nmapped - 1 } := by
  simp only [page_unpin]
  rw [if_pos hlt, if_neg h1, if_pos h2]
  rfl

theorem page_free_ondisk {idx : Nat} {t : St} (hlt : idx < TABLESZ)
    (h1 : t.states idx &&& PAGE_ONDISK ≠ 0) (h2 : t.states idx &&& PAGE_MAPPED = 0) :
    page_free idx t = .ok { t with
      filesExist := updf t.filesExist idx false,
      states := updf t.states idx (t.states idx &&& 253),
      nondisk := t.nondisk - 1 } := by
  simp only [page_free]
  rw [if_pos hlt, if_pos h1, if_neg (by simp [h2])]
  rfl

theorem page_free_mem {idx : Nat} {t : St} (hlt : idx < TABLESZ)
    (h1 : t.states idx &&& PAGE_ONDISK = 0) (h2 : t.states idx &&& PAGE_MAPPED ≠ 0) :
    page_free idx t = .ok { t with
      states := updf t.states idx (t.states idx &&& 254),
      nmapped := t.nmapped - 1,
      nfree := t.nfree + 1 } := by
  simp only [page_free]
  rw [if_pos hlt, if_neg (by simp [h1]), if_pos h2]
  rfl

theorem page_free_absent {idx : Nat} {t : St} (hlt : idx < TABLESZ)
    (h1 : t.states idx &&& PAGE_ONDISK = 0) (h2 : t.states idx &&& PAGE_MAPPED = 0) :
    page_free idx t = .ok t := by
  simp [page_free, hlt, h1, h2]

/-! ### The page-store operations preserve the table invariant -/

theorem states_lt_updf {st : St} (h : ∀ i, st.states i < 4) {idx v : Nat} (hv : v < 4) :
    ∀ i, updf st.states idx v i < 4 := by
  intro i
  by_cases hi : i = idx
  · subst hi; simpa using hv
  · rw [updf_ne _ _ _ _ hi]; exact h i

theorem files_iff_updf {st : St}
    (h : ∀ i, st.filesExist i = true ↔ st.states i &&& PAGE_ONDISK ≠ 0)
    {idx v : Nat} {b : Bool} (hb : (b = true) ↔ (v &&& PAGE_ONDISK ≠ 0)) :
    ∀ i, updf st.filesExist idx b i = true ↔ updf st.states idx v i &&& PAGE_ONDISK ≠ 0 := by
  intro i
  by_cases hi : i = idx
  · subst hi; rw [updf_self, updf_self]; exact hb
  · rw [updf_ne _ _ _ _ hi, updf_ne _ _ _ _ hi]; exact h i

theorem files_iff_updf_states {st : St}
    (h : ∀ i, st.filesExist i = true ↔ st.states i &&& PAGE_ONDISK ≠ 0)
    {idx v : Nat} (hv : (v &&& PAGE_ONDISK ≠ 0) ↔ (st.states idx &&& PAGE_ONDISK ≠ 0)) :
    ∀ i, st.filesExist i = true ↔ updf st.states idx v i &&& PAGE_ONDISK ≠ 0 := by
  intro i
  by_cases hi : i = idx
  · subst hi; rw [updf_self]; exact (h _).trans hv.symm
  · rw [updf_ne _ _ _ _ hi]; exact h i

theorem page_pin_table {idx : Nat} {a : Bool} {st st' : St} (h : TableInv st)
    (hpin : page_pin idx a st = .ok st') : TableInv st' := by
  by_cases hlt : idx < TABLESZ
  · rcases states_cases (h.states_lt idx) with h0 | h0 | h0 | h0
    · -- absent slot: anonymous, ENOMEM-spill or direct-spill path
      by_cases hf : st.nfree = 0
      · rw [page_pin_spill a hlt h0 hf] at hpin
        injection hpin with h'
        subst h'
        refine ⟨states_lt_updf h.states_lt (by decide),
          files_iff_updf h.files_iff (by decide), ?_, ?_⟩
        · have hflip := card_filter_flip_on (f := st.states)
            (P := fun s => s &&& PAGE_MAPPED ≠ 0) (v := 3) hlt (by decide)
            (by rw [h0]; decide)
          dsimp only at hflip ⊢
          rw [hflip, h.nmapped_eq]
        · have hflip := card_filter_flip_on (f := st.states)
            (P := fun s => s &&& PAGE_ONDISK ≠ 0) (v := 3) hlt (by decide)
            (by rw [h0]; decide)
          dsimp only at hflip ⊢
          rw [hflip, h.nondisk_eq]
      · cases a with
        | false =>
          rw [page_pin_enomem hlt h0 hf] at hpin
          injection hpin with h'
          subst h'
          refine ⟨states_lt_updf h.states_lt (by decide),
            files_iff_updf h.files_iff (by decide), ?_, ?_⟩
          · have hflip := card_filter_flip_on (f := st.states)
              (P := fun s => s &&& PAGE_MAPPED ≠ 0) (v := 3) hlt (by decide)
              (by rw [h0]; decide)
            dsimp only at hflip ⊢
            rw [hflip, h.nmapped_eq]
          · have hflip := card_filter_flip_on (f := st.states)
              (P := fun s => s &&& PAGE_ONDISK ≠ 0) (v := 3) hlt (by decide)
              (by rw [h0]; decide)
            dsimp only at hflip ⊢
            rw [hflip, h.nondisk_eq]
        | true =>
          rw [page_pin_anon hlt h0 hf] at hpin
          injection hpin with h'
          subst h'
          refine ⟨states_lt_updf h.states_lt (by decide),
            files_iff_updf_states h.files_iff (by rw [h0]; decide), ?_, ?_⟩
          · have hflip := card_filter_flip_on (f := st.states)
              (P := fun s => s &&& PAGE_MAPPED ≠ 0) (v := 1) hlt (by decide)
              (by rw [h0]; decide)
            dsimp only at hflip ⊢
            rw [hflip, h.nmapped_eq]
          · have hkeep := card_filter_keep (f := st.states)
              (P := fun s => s &&& PAGE_ONDISK ≠ 0) (v := 1) TABLESZ
              (by rw [h0]; decide)
            dsimp only at hkeep ⊢
            rw [hkeep, h.nondisk_eq]
    · rw [page_pin_mapped a hlt (by rw [h0]; decide)] at hpin
      injection hpin with h'
      subst h'
      exact h
    · rw [page_pin_remap a hlt (by rw [h0]; decide) (by rw [h0]; decide)] at hpin
      injection hpin with h'
      subst h'
      refine ⟨states_lt_updf h.states_lt (by rw [h0]; decide),
        files_iff_updf_states h.files_iff (by rw [h0]; decide), ?_, ?_⟩
      · have hflip := card_filter_flip_on (f := st.states)
          (P := fun s => s &&& PAGE_MAPPED ≠ 0) (v := st.states idx ||| PAGE_MAPPED)
          hlt (by rw [h0]; decide) (by rw [h0]; decide)
        dsimp only at hflip ⊢
        rw [hflip, h.nmapped_eq]
      · have hkeep := card_filter_keep (f := st.states)
          (P := fun s => s &&& PAGE_ONDISK ≠ 0) (v := st.states idx ||| PAGE_MAPPED)
          TABLESZ (by rw [h0]; decide)
        dsimp only at hkeep ⊢
        rw [hkeep, h.nondisk_eq]
    · rw [page_pin_mapped a hlt (by rw [h0]; decide)] at hpin
      injection hpin with h'
      subst h'
      exact h
  · rw [page_pin, if_neg hlt] at hpin
    cases hpin

theorem page_unpin_table {idx : Nat} {st st' : St} (h : TableInv st)
    (hunpin : page_unpin idx st = .ok st') : TableInv st' := by
  by_cases hlt : idx < TABLESZ
  · rcases states_cases (h.states_lt idx) with h0 | h0 | h0 | h0
    · rw [page_unpin_unmapped hlt (by rw [h0]; decide)] at hunpin
      injection hunpin with h'
      subst h'
      exact h
    · rw [page_unpin_mem hlt (by rw [h0]; decide) (by rw [h0]; decide)] at hunpin
      injection hunpin with h'
      subst h'
      exact h
    · rw [page_unpin_unmapped hlt (by rw [h0]; decide)] at hunpin
      injection hunpin with h'
      subst h'
      exact h
    · rw [page_unpin_disk hlt (by rw [h0]; decide) (by rw [h0]; decide)] at hunpin
      injection hunpin with h'
      subst h'
      refine ⟨states_lt_updf h.states_lt (by rw [h0]; decide),
        files_iff_updf_states h.files_iff (by rw [h0]; decide), ?_, ?_⟩
      · have hflip := card_filter_flip_off (f := st.states)
          (P := fun s => s &&& PAGE_MAPPED ≠ 0) (v := st.states idx &&& 254)
          hlt (by rw [h0]; decide) (by rw [h0]; decide)
        dsimp only at hflip ⊢
        rw [h.nmapped_eq, hflip]
        omega
      · have hkeep := card_filter_keep (f := st.states)
          (P := fun s => s &&& PAGE_ONDISK ≠ 0) (v := st.states idx &&& 254)
          TABLESZ (by rw [h0]; decide)
        dsimp only at hkeep ⊢
        rw [hkeep, h.nondisk_eq]
  · rw [page_unpin, if_neg hlt] at hunpin
    cases hunpin

theorem page_free_table {idx : Nat} {st st' : St} (h : TableInv st)
    (hfree : page_free idx st = .ok st') : TableInv st' := by
  by_cases hlt : idx < TABLESZ
  · rcases states_cases (h.states_lt idx) with h0 | h0 | h0 | h0
    · rw [page_free_absent hlt (by rw [h0]; decide) (by rw [h0]; decide)] at hfree
      injection hfree with h'
      subst h'
      exact h
    · rw [page_free_mem hlt (by rw [h0]; decide) (by rw [h0]; decide)] at hfree
      injection hfree with h'
      subst h'
      refine ⟨states_lt_updf h.states_lt (by rw [h0]; decide),
        files_iff_updf_states h.files_iff (by rw [h0]; decide), ?_, ?_⟩
      · have hflip := card_filter_flip_off (f := st.states)
          (P := fun s => s &&& PAGE_MAPPED ≠ 0) (v := st.states idx &&& 254)
          hlt (by rw [h0]; decide) (by rw [h0]; decide)
        dsimp only at hflip ⊢
        rw [h.nmapped_eq, hflip]
        omega
      · have hkeep := card_filter_keep (f := st.states)
          (P := fun s => s &&& PAGE_ONDISK ≠ 0) (v := st.states idx &&& 254)
          TABLESZ (by rw [h0]; decide)
        dsimp only at hkeep ⊢
        rw [hkeep, h.nondisk_eq]
    · rw [page_free_ondisk hlt (by rw [h0]; decide) (by rw [h0]; decide)] at hfree
      injection hfree with h'
      subst h'
      refine ⟨states_lt_updf h.states_lt (by rw [h0]; decide),
        files_iff_updf h.files_iff (by rw [h0]; decide), ?_, ?_⟩
      · have hkeep := card_filter_keep (f := st.states)
          (P := fun s => s &&& PAGE_MAPPED ≠ 0) (v := st.states idx &&& 253)
          TABLESZ (by rw [h0]; decide)
        dsimp only at hkeep ⊢
        rw [hkeep, h.nmapped_eq]
      · have hflip := card_filter_flip_off (f := st.states)
          (P := fun s => s &&& PAGE_ONDISK ≠ 0) (v := st.states idx &&& 253)
          hlt (by rw [h0]; decide) (by rw [h0]; decide)
        dsimp only at hflip ⊢
        rw [h.nondisk_eq, hflip]
        omega
    · -- disk-backed and mapped: `page_free` would hit its assertion
      rw [page_free] at hfree
      rw [if_pos hlt, if_pos (by rw [h0]; decide), if_pos (by rw [h0]; decide)] at hfree
      cases hfree
  · rw [page_free, if_neg hlt] at hfree
    cases hfree

/-! ### Branch evaluation lemmas for the loop arms -/

theorem readStep_eof {S : Nat → Nat} {slen : Nat} {o : Orac} {st : St}
    (hin : st.nin = slen) :
    readStep S slen o st = .ok { st with ntoread := 0, eof := true } := by
  rw [readStep, if_pos hin]

theorem readStep_nocross {S : Nat → Nat} {slen : Nat} {o : Orac} {st : St}
    (hin : st.nin ≠ slen) (hcross : st.rpos.off + rdK o slen st ≠ PAGESZ) :
    readStep S slen o st = .ok { st with
      pages := fun i j =>
        if i = st.rpos.idx ∧ st.rpos.off ≤ j ∧ j < st.rpos.off + rdK o slen st
        then S (st.nin + (j - st.rpos.off)) else st.pages i j,
      nin := st.nin + rdK o slen st,
      rpos := ⟨st.rpos.idx, st.rpos.off + rdK o slen st⟩,
      ntoread := PAGESZ - (st.rpos.off + rdK o slen st) } := by
  rw [readStep, if_neg hin]
  simp only [if_neg hcross]

theorem readStep_cross {S : Nat → Nat} {slen : Nat} {o : Orac} {st : St}
    (hin : st.nin ≠ slen) (hcross : st.rpos.off + rdK o slen st = PAGESZ) :
    readStep S slen o st =
      (match (if st.rpos.idx ≠ st.wpos.idx
              then page_unpin st.rpos.idx { st with
                pages := fun i j =>
                  if i = st.rpos.idx ∧ st.rpos.off ≤ j ∧ j < st.rpos.off + rdK o slen st
                  then S (st.nin + (j - st.rpos.off)) else st.pages i j,
                nin := st.nin + rdK o slen st }
              else .ok { st with
                pages := fun i j =>
                  if i = st.rpos.idx ∧ st.rpos.off ≤ j ∧ j < st.rpos.off + rdK o slen st
                  then S (st.nin + (j - st.rpos.off)) else st.pages i j,
                nin := st.nin + rdK o slen st }) with
       | .error e => .error e
       | .ok st2 =>
         if st.rpos.idx + 1 ≥ TABLESZ then .error .outOfPages
         else
           match page_pin (st.rpos.idx + 1) o.mmapOkR st2 with
           | .error e => .error e
           | .ok st3 => .ok { st3 with rpos := ⟨st.rpos.idx + 1, 0⟩, ntoread := PAGESZ }) := by
  rw [readStep, if_neg hin]
  simp only [if_pos hcross]

/-! ### Helper facts for the preservation proofs -/

theorem pos_mk (i q : Nat) : (⟨i, q⟩ : Paddr).pos = i * PAGESZ + q := rfl

theorem pos_def (p : Paddr) : p.pos = p.idx * PAGESZ + p.off := rfl

theorem div_mod_decomp (p : Nat) : p / PAGESZ * PAGESZ + p % PAGESZ = p := by
  rw [Nat.mul_comm]
  exact Nat.div_add_mod p PAGESZ

theorem rdK_bounds {S : Nat → Nat} {slen : Nat} (o : Orac) {st : St}
    (hC : InvC S slen st) (hg : st.ntoread ≠ 0) (hin : st.nin ≠ slen) :
    1 ≤ rdK o slen st ∧ rdK o slen st ≤ st.ntoread ∧ st.nin + rdK o slen st ≤ slen := by
  have h3 : 1 ≤ slen - st.nin := by
    have := hC.nin_le
    omega
  refine ⟨le_min (le_max_right _ 1) (le_min (Nat.one_le_iff_ne_zero.mpr hg) h3), ?_, ?_⟩
  · exact le_trans (min_le_right _ _) (min_le_left _ _)
  · have hk : rdK o slen st ≤ slen - st.nin :=
      le_trans (min_le_right _ _) (min_le_right _ _)
    have := hC.nin_le
    omega

/-- The freshly read bytes, together with the old pending region, make the
page contents agree with the input over the extended pending region. -/
theorem pages1_pending {S : Nat → Nat} {slen : Nat} {st : St} (hC : InvC S slen st)
    {k : Nat} (hkoff : st.rpos.off + k ≤ PAGESZ) :
    ∀ p, st.wpos.pos ≤ p → p < st.rpos.pos + k →
      (fun i j => if i = st.rpos.idx ∧ st.rpos.off ≤ j ∧ j < st.rpos.off + k
        then S (st.nin + (j - st.rpos.off)) else st.pages i j) (p / PAGESZ) (p % PAGESZ)
        = S p := by
  intro p hpw hpr
  have hrp : st.rpos.pos = st.rpos.idx * PAGESZ + st.rpos.off := rfl
  dsimp only
  by_cases hcase : p < st.rpos.pos
  · rw [if_neg]
    · exact hC.pendingEq p hpw hcase
    · rintro ⟨hq1, hq2, hq3⟩
      have hdm := div_mod_decomp p
      rw [hq1] at hdm
      omega
  · push_neg at hcase
    set t := p - st.rpos.pos with ht
    have hq : p = st.rpos.idx * PAGESZ + (st.rpos.off + t) := by omega
    have hofflt : st.rpos.off + t < PAGESZ := by omega
    rw [hq, pos_div _ hofflt, pos_mod _ hofflt, if_pos ⟨rfl, by omega, by omega⟩]
    have hnin := hC.nin_eq
    congr 1
    omega

/-- The cursor-dependent invariant clauses after an intake page-crossing.
`stX` is the final slot-state table (the old intake page possibly
unpinned at `u`, the fresh page pinned at `v`); the byte just-read
region filled page `rpos.idx` to the page boundary, and the fresh
page `rpos.idx + 1` was pinned (zero-filled, state `1` in memory or
`3` on disk); the table-related fields are untouched beyond what
`htab` certifies. -/
theorem invc_read_cross {S : Nat → Nat} {slen : Nat} {st : St}
    (hC : InvC S slen st) {k u v : Nat} {stX : Nat → Nat} {fxX : Nat → Bool}
    {nmX ndX nfX : Nat} {hdX : Bool}
    (heof : st.eof = false)
    (hk1 : 1 ≤ k) (hk3 : st.nin + k ≤ slen)
    (hcross : st.rpos.off + k = PAGESZ) (hlt2 : st.rpos.idx + 1 < TABLESZ)
    (hsother : ∀ i, i ≠ st.rpos.idx → i ≠ st.rpos.idx + 1 → stX i = st.states i)
    (hsu : stX st.rpos.idx = u) (hsv : stX (st.rpos.idx + 1) = v)
    (hu2 : u &&& PAGE_ONDISK ≠ 0 ↔ st.states st.rpos.idx &&& PAGE_ONDISK ≠ 0)
    (hu1 : u &&& PAGE_MAPPED ≠ 0 ↔
      (st.rpos.idx = st.wpos.idx ∨ st.states st.rpos.idx &&& PAGE_ONDISK = 0))
    (hv : v = 1 ∨ v = 3)
    (htab : TableInv { st with
      pages := updf (fun i j =>
        if i = st.rpos.idx ∧ st.rpos.off ≤ j ∧ j < st.rpos.off + k
        then S (st.nin + (j - st.rpos.off)) else st.pages i j)
        (st.rpos.idx + 1) (fun _ => 0),
      states := stX, filesExist := fxX, nmapped := nmX, nondisk := ndX,
      nfree := nfX, headroom := hdX, nin := st.nin + k,
      rpos := ⟨st.rpos.idx + 1, 0⟩, ntoread := PAGESZ }) :
    InvC S slen { st with
      pages := updf (fun i j =>
        if i = st.rpos.idx ∧ st.rpos.off ≤ j ∧ j < st.rpos.off + k
        then S (st.nin + (j - st.rpos.off)) else st.pages i j)
        (st.rpos.idx + 1) (fun _ => 0),
      states := stX, filesExist := fxX, nmapped := nmX, nondisk := ndX,
      nfree := nfX, headroom := hdX, nin := st.nin + k,
      rpos := ⟨st.rpos.idx + 1, 0⟩, ntoread := PAGESZ } := by
  have hrp : st.rpos.pos = st.rpos.idx * PAGESZ + st.rpos.off := rfl
  have hmul : (st.rpos.idx + 1) * PAGESZ = st.rpos.idx * PAGESZ + PAGESZ := by ring
  have hwle := hC.widx_le
  have hwr := hC.wr_le
  have hro := hC.roff_lt
  refine ⟨htab, hlt2, PAGESZ_pos, hC.woff_lt, ?_, ?_, ?_, ?_, hC.nout_eq, hk3,
    ?_, ?_, hC.outPref, ?_⟩
  · -- wr_le
    show st.wpos.pos ≤ Paddr.pos ⟨st.rpos.idx + 1, 0⟩
    have hposmk : Paddr.pos ⟨st.rpos.idx + 1, 0⟩ = (st.rpos.idx + 1) * PAGESZ + 0 := rfl
    omega
  · -- ntoread_eq
    dsimp only
    rw [heof]
    simp
  · -- eof_nin
    dsimp only
    rw [heof]
    simp
  · -- nin_eq
    show st.nin + k = Paddr.pos ⟨st.rpos.idx + 1, 0⟩
    have hposmk : Paddr.pos ⟨st.rpos.idx + 1, 0⟩ = (st.rpos.idx + 1) * PAGESZ + 0 := rfl
    have hnin := hC.nin_eq
    omega
  · -- mapped_iff
    intro i
    dsimp only
    by_cases hi1 : i = st.rpos.idx + 1
    · subst hi1
      rw [hsv]
      rcases hv with rfl | rfl
      · exact iff_of_true (by decide) ⟨by omega, le_refl _, Or.inr (Or.inr rfl)⟩
      · exact iff_of_true (by decide) ⟨by omega, le_refl _, Or.inr (Or.inr rfl)⟩
    · by_cases hi2 : i = st.rpos.idx
      · subst hi2
        rw [hsu]
        constructor
        · intro hm
          rcases hu1.mp hm with h' | h'
          · exact ⟨hwle, by omega, Or.inr (Or.inl h')⟩
          · refine ⟨hwle, by omega, Or.inl ?_⟩
            by_contra hc
            exact (hu2.mp hc) h'
        · rintro ⟨-, -, hd⟩
          apply hu1.mpr
          rcases hd with hd | hd | hd
          · right
            by_contra hc
            exact (hu2.mpr hc) hd
          · exact Or.inl hd
          · exact absurd hd hi1
      · rw [hsother i hi2 hi1]
        have hold := hC.mapped_iff i
        constructor
        · intro hm
          obtain ⟨hw, hr, hd⟩ := hold.mp hm
          refine ⟨hw, by omega, ?_⟩
          rcases hd with hd | hd | hd
          · exact Or.inl hd
          · exact Or.inr (Or.inl hd)
          · exact absurd hd hi2
        · rintro ⟨hw, hr, hd⟩
          apply hold.mpr
          refine ⟨hw, by omega, ?_⟩
          rcases hd with hd | hd | hd
          · exact Or.inl hd
          · exact Or.inr (Or.inl hd)
          · exact absurd hd hi1
  · -- ondisk_range
    intro i hdisk
    dsimp only at hdisk ⊢
    by_cases hi1 : i = st.rpos.idx + 1
    · subst hi1
      exact ⟨by omega, le_refl _⟩
    · by_cases hi2 : i = st.rpos.idx
      · subst hi2
        exact ⟨hwle, by omega⟩
      · rw [hsother i hi2 hi1] at hdisk
        have hrange := hC.ondisk_range i hdisk
        exact ⟨hrange.1, by omega⟩
  · -- pendingEq
    intro p hpw hpr
    have hpr' : p < (st.rpos.idx + 1) * PAGESZ + 0 := hpr
    clear hpr
    have hplt : p < (st.rpos.idx + 1) * PAGESZ := by omega
    have hpw' : st.wpos.pos ≤ p := hpw
    rw [Nat.mul_comm] at hplt
    have hdiv : p / PAGESZ < st.rpos.idx + 1 := Nat.div_lt_of_lt_mul hplt
    have hne : p / PAGESZ ≠ st.rpos.idx + 1 := by omega
    dsimp only
    rw [updf_ne _ _ _ _ hne]
    exact pages1_pending hC (by omega) p hpw (by omega)

theorem cross_pos_mono {st : St} (hro : st.rpos.off < PAGESZ) :
    st.rpos.pos ≤ Paddr.pos ⟨st.rpos.idx + 1, 0⟩ := by
  have h1 : Paddr.pos ⟨st.rpos.idx + 1, 0⟩ = (st.rpos.idx + 1) * PAGESZ + 0 := rfl
  have h2 : (st.rpos.idx + 1) * PAGESZ = st.rpos.idx * PAGESZ + PAGESZ := by ring
  have h3 : st.rpos.pos = st.rpos.idx * PAGESZ + st.rpos.off := rfl
  omega

/-- The stdin arm preserves the invariant core; its only possible failure
is the out-of-pages abort.  The drain cursor and `ntowrite` are
untouched, and the intake cursor is monotone. -/
theorem readStep_spec {S : Nat → Nat} {slen : Nat} (o : Orac) {st : St}
    (hI : Inv S slen st) (hg : st.ntoread ≠ 0) :
    (∃ st1, readStep S slen o st = .ok st1 ∧ InvC S slen st1 ∧
      st1.ntowrite = st.ntowrite ∧ st1.wpos = st.wpos ∧
      st.rpos.pos ≤ st1.rpos.pos ∧ st.rpos.idx ≤ st1.rpos.idx) ∨
    readStep S slen o st = .error .outOfPages := by
  have hC := hI.toInvC
  have heof : st.eof = false := by
    cases he : st.eof
    · rfl
    · exfalso
      apply hg
      rw [hC.ntoread_eq, he]
      simp
  have hnt : st.ntoread = PAGESZ - st.rpos.off := by
    rw [hC.ntoread_eq, heof]
    simp
  by_cases hin : st.nin = slen
  · refine Or.inl ⟨_, readStep_eof hin, ?_, rfl, rfl, le_refl _, le_refl _⟩
    exact ⟨hC.table.copy rfl rfl rfl rfl, hC.ridx_lt, hC.roff_lt, hC.woff_lt,
      hC.wr_le, by simp, fun _ => hin, hC.nin_eq, hC.nout_eq, hC.nin_le,
      hC.mapped_iff, hC.ondisk_range, hC.outPref, hC.pendingEq⟩
  · obtain ⟨hk1, hk2, hk3⟩ := rdK_bounds o hC hg hin
    have hro := hC.roff_lt
    have hkoff : st.rpos.off + rdK o slen st ≤ PAGESZ := by
      rw [hnt] at hk2
      omega
    by_cases hcross : st.rpos.off + rdK o slen st = PAGESZ
    · -- intake page crossing
      have hrp : st.rpos.pos = st.rpos.idx * PAGESZ + st.rpos.off := rfl
      rw [readStep_cross hin hcross]
      set t1 : St := { st with
        pages := fun i j =>
          if i = st.rpos.idx ∧ st.rpos.off ≤ j ∧ j < st.rpos.off + rdK o slen st
          then S (st.nin + (j - st.rpos.off)) else st.pages i j,
        nin := st.nin + rdK o slen st } with ht1
      have htab1 : TableInv t1 := hC.table.copy rfl rfl rfl rfl
      by_cases hRW : st.rpos.idx ≠ st.wpos.idx
      · -- the intake leaves its page behind: unpin it
        have hm : t1.states st.rpos.idx &&& PAGE_MAPPED ≠ 0 := hC.mapped_r
        rcases states_cases (hC.table.states_lt st.rpos.idx) with h0 | h0 | h0 | h0
        · exfalso
          apply hm
          show st.states st.rpos.idx &&& PAGE_MAPPED = 0
          rw [h0]
          decide
        · -- memory-resident page: unpin is a no-op
          have ho2 : t1.states st.rpos.idx &&& PAGE_ONDISK = 0 := by
            show st.states st.rpos.idx &&& PAGE_ONDISK = 0
            rw [h0]
            decide
          have hunpin := @page_unpin_mem st.rpos.idx t1 hC.ridx_lt hm ho2
          rw [if_pos hRW, hunpin]
          dsimp only
          by_cases hend : st.rpos.idx + 1 ≥ TABLESZ
          · exact Or.inr (by rw [if_pos hend])
          · push_neg at hend
            rw [if_neg (by omega)]
            have hz : t1.states (st.rpos.idx + 1) = 0 :=
              hC.states_eq_zero_of_gt (by omega)
            have hsoth : ∀ i, i ≠ st.rpos.idx → i ≠ st.rpos.idx + 1 →
                updf t1.states (st.rpos.idx + 1) 3 i = st.states i :=
              fun i _ hi1 => updf_ne _ _ _ _ hi1
            have hsoth1 : ∀ i, i ≠ st.rpos.idx → i ≠ st.rpos.idx + 1 →
                updf t1.states (st.rpos.idx + 1) 1 i = st.states i :=
              fun i _ hi1 => updf_ne _ _ _ _ hi1
            have hu1m : t1.states st.rpos.idx &&& PAGE_MAPPED ≠ 0 ↔
                (st.rpos.idx = st.wpos.idx ∨
                  st.states st.rpos.idx &&& PAGE_ONDISK = 0) :=
              iff_of_true hm (Or.inr ho2)
            by_cases hf : st.nfree = 0
            · have hpin := @page_pin_spill (st.rpos.idx + 1) t1 o.mmapOkR hend hz hf
              rw [hpin]
              dsimp only
              refine Or.inl ⟨_, rfl, ?_, rfl, rfl, cross_pos_mono hro, Nat.le_succ _⟩
              exact invc_read_cross hC heof hk1 hk3 hcross hend hsoth
                (updf_ne _ _ _ _ (by omega)) (updf_self _ _ _) Iff.rfl hu1m
                (Or.inr rfl)
                ((page_pin_table htab1 hpin).copy rfl rfl rfl rfl)
            · cases ho : o.mmapOkR
              · have hpin := @page_pin_enomem (st.rpos.idx + 1) t1 hend hz hf
                rw [hpin]
                dsimp only
                refine Or.inl ⟨_, rfl, ?_, rfl, rfl, cross_pos_mono hro, Nat.le_succ _⟩
                exact invc_read_cross hC heof hk1 hk3 hcross hend hsoth
                  (updf_ne _ _ _ _ (by omega)) (updf_self _ _ _) Iff.rfl hu1m
                  (Or.inr rfl)
                  ((page_pin_table htab1 hpin).copy rfl rfl rfl rfl)
              · have hpin := @page_pin_anon (st.rpos.idx + 1) t1 hend hz hf
                rw [hpin]
                dsimp only
                refine Or.inl ⟨_, rfl, ?_, rfl, rfl, cross_pos_mono hro, Nat.le_succ _⟩
                exact invc_read_cross hC heof hk1 hk3 hcross hend hsoth1
                  (updf_ne _ _ _ _ (by omega)) (updf_self _ _ _) Iff.rfl hu1m
                  (Or.inl rfl)
                  ((page_pin_table htab1 hpin).copy rfl rfl rfl rfl)
        · exfalso
          apply hm
          show st.states st.rpos.idx &&& PAGE_MAPPED = 0
          rw [h0]
          decide
        · -- disk-backed page: unpin unmaps it
          have ho2 : t1.states st.rpos.idx &&& PAGE_ONDISK ≠ 0 := by
            show st.states st.rpos.idx &&& PAGE_ONDISK ≠ 0
            rw [h0]
            decide
          have hunpin := @page_unpin_disk st.rpos.idx t1 hC.ridx_lt hm ho2
          rw [if_pos hRW, hunpin]
          dsimp only
          set t2 : St := { t1 with
            states := updf t1.states st.rpos.idx (t1.states st.rpos.idx &&& 254),
            nmapped := t1.nmapped - 1 } with ht2
          have htab2 : TableInv t2 := page_unpin_table htab1 hunpin
          by_cases hend : st.rpos.idx + 1 ≥ TABLESZ
          · exact Or.inr (by rw [if_pos hend])
          · push_neg at hend
            rw [if_neg (by omega)]
            have hz : t2.states (st.rpos.idx + 1) = 0 := by
              show updf t1.states st.rpos.idx
                (t1.states st.rpos.idx &&& 254) (st.rpos.idx + 1) = 0
              rw [updf_ne _ _ _ _ (by omega)]
              exact hC.states_eq_zero_of_gt (by omega)
            have hsu2 : ∀ v : Nat, updf t2.states (st.rpos.idx + 1) v st.rpos.idx
                = t1.states st.rpos.idx &&& 254 := by
              intro v
              rw [updf_ne _ _ _ _ (by omega)]
              exact updf_self _ _ _
            have hu2d : (t1.states st.rpos.idx &&& 254) &&& PAGE_ONDISK ≠ 0 ↔
                st.states st.rpos.idx &&& PAGE_ONDISK ≠ 0 := by
              show (st.states st.rpos.idx &&& 254) &&& PAGE_ONDISK ≠ 0 ↔
                st.states st.rpos.idx &&& PAGE_ONDISK ≠ 0
              rw [h0]
              decide
            have hu1d : (t1.states st.rpos.idx &&& 254) &&& PAGE_MAPPED ≠ 0 ↔
                (st.rpos.idx = st.wpos.idx ∨
                  st.states st.rpos.idx &&& PAGE_ONDISK = 0) := by
              refine iff_of_false ?_ ?_
              · show ¬((st.states st.rpos.idx &&& 254) &&& PAGE_MAPPED ≠ 0)
                rw [h0]
                decide
              · rintro (h' | h')
                · exact hRW h'
                · rw [h0] at h'
                  revert h'
                  decide
            have hsoth : ∀ i, i ≠ st.rpos.idx → i ≠ st.rpos.idx + 1 →
                ∀ v : Nat, updf t2.states (st.rpos.idx + 1) v i = st.states i := by
              intro i hi2 hi1 v
              rw [updf_ne _ _ _ _ hi1]
              show updf t1.states st.rpos.idx (t1.states st.rpos.idx &&& 254) i
                = st.states i
              rw [updf_ne _ _ _ _ hi2]
            by_cases hf : st.nfree = 0
            · have hpin := @page_pin_spill (st.rpos.idx + 1) t2 o.mmapOkR hend hz hf
              rw [hpin]
              dsimp only
              refine Or.inl ⟨_, rfl, ?_, rfl, rfl, cross_pos_mono hro, Nat.le_succ _⟩
              exact invc_read_cross hC heof hk1 hk3 hcross hend
                (fun i hi2 hi1 => hsoth i hi2 hi1 3) (hsu2 3) (updf_self _ _ _)
                hu2d hu1d (Or.inr rfl)
                ((page_pin_table htab2 hpin).copy rfl rfl rfl rfl)
            · cases ho : o.mmapOkR
              · have hpin := @page_pin_enomem (st.rpos.idx + 1) t2 hend hz hf
                rw [hpin]
                dsimp only
                refine Or.inl ⟨_, rfl, ?_, rfl, rfl, cross_pos_mono hro, Nat.le_succ _⟩
                exact invc_read_cross hC heof hk1 hk3 hcross hend
                  (fun i hi2 hi1 => hsoth i hi2 hi1 3) (hsu2 3) (updf_self _ _ _)
                  hu2d hu1d (Or.inr rfl)
                  ((page_pin_table htab2 hpin).copy rfl rfl rfl rfl)
              · have hpin := @page_pin_anon (st.rpos.idx + 1) t2 hend hz hf
                rw [hpin]
                dsimp only
                refine Or.inl ⟨_, rfl, ?_, rfl, rfl, cross_pos_mono hro, Nat.le_succ _⟩
                exact invc_read_cross hC heof hk1 hk3 hcross hend
                  (fun i hi2 hi1 => hsoth i hi2 hi1 1) (hsu2 1) (updf_self _ _ _)
                  hu2d hu1d (Or.inl rfl)
                  ((page_pin_table htab2 hpin).copy rfl rfl rfl rfl)
      · -- cursors share the page: unpin skipped
        push_neg at hRW
        rw [if_neg (by simp [hRW])]
        dsimp only
        by_cases hend : st.rpos.idx + 1 ≥ TABLESZ
        · exact Or.inr (by rw [if_pos hend])
        · push_neg at hend
          rw [if_neg (by omega)]
          have hz : t1.states (st.rpos.idx + 1) = 0 :=
            hC.states_eq_zero_of_gt (by omega)
          have hu1s : t1.states st.rpos.idx &&& PAGE_MAPPED ≠ 0 ↔
              (st.rpos.idx = st.wpos.idx ∨
                st.states st.rpos.idx &&& PAGE_ONDISK = 0) :=
            iff_of_true hC.mapped_r (Or.inl hRW)
          by_cases hf : st.nfree = 0
          · have hpin := @page_pin_spill (st.rpos.idx + 1) t1 o.mmapOkR hend hz hf
            rw [hpin]
            dsimp only
            refine Or.inl ⟨_, rfl, ?_, rfl, rfl, cross_pos_mono hro, Nat.le_succ _⟩
            exact invc_read_cross hC heof hk1 hk3 hcross hend
              (fun i _ hi1 => updf_ne _ _ _ _ hi1)
              (updf_ne _ _ _ _ (by omega)) (updf_self _ _ _) Iff.rfl hu1s
              (Or.inr rfl)
              ((page_pin_table htab1 hpin).copy rfl rfl rfl rfl)
          · cases ho : o.mmapOkR
            · have hpin := @page_pin_enomem (st.rpos.idx + 1) t1 hend hz hf
              rw [hpin]
              dsimp only
              refine Or.inl ⟨_, rfl, ?_, rfl, rfl, cross_pos_mono hro, Nat.le_succ _⟩
              exact invc_read_cross hC heof hk1 hk3 hcross hend
                (fun i _ hi1 => updf_ne _ _ _ _ hi1)
                (updf_ne _ _ _ _ (by omega)) (updf_self _ _ _) Iff.rfl hu1s
                (Or.inr rfl)
                ((page_pin_table htab1 hpin).copy rfl rfl rfl rfl)
            · have hpin := @page_pin_anon (st.rpos.idx + 1) t1 hend hz hf
              rw [hpin]
              dsimp only
              refine Or.inl ⟨_, rfl, ?_, rfl, rfl, cross_pos_mono hro, Nat.le_succ _⟩
              exact invc_read_cross hC heof hk1 hk3 hcross hend
                (fun i _ hi1 => updf_ne _ _ _ _ hi1)
                (updf_ne _ _ _ _ (by omega)) (updf_self _ _ _) Iff.rfl hu1s
                (Or.inl rfl)
                ((page_pin_table htab1 hpin).copy rfl rfl rfl rfl)
    · -- no page crossing
      refine Or.inl ⟨_, readStep_nocross hin hcross, ?_, rfl, rfl, ?_, le_refl _⟩
      · refine ⟨hC.table.copy rfl rfl rfl rfl, hC.ridx_lt,
          by dsimp only; omega, hC.woff_lt, ?_,
          by dsimp only; rw [heof]; simp,
          by dsimp only; rw [heof]; simp,
          ?_, hC.nout_eq, hk3, hC.mapped_iff, hC.ondisk_range,
          hC.outPref, ?_⟩
        · show st.wpos.pos ≤ Paddr.pos ⟨st.rpos.idx, st.rpos.off + rdK o slen st⟩
          have h1 : Paddr.pos ⟨st.rpos.idx, st.rpos.off + rdK o slen st⟩
              = st.rpos.idx * PAGESZ + (st.rpos.off + rdK o slen st) := rfl
          have h2 : st.rpos.pos = st.rpos.idx * PAGESZ + st.rpos.off := rfl
          have h3 := hC.wr_le
          omega
        · show st.nin + rdK o slen st
            = Paddr.pos ⟨st.rpos.idx, st.rpos.off + rdK o slen st⟩
          have h1 : Paddr.pos ⟨st.rpos.idx, st.rpos.off + rdK o slen st⟩
              = st.rpos.idx * PAGESZ + (st.rpos.off + rdK o slen st) := rfl
          have h2 : st.rpos.pos = st.rpos.idx * PAGESZ + st.rpos.off := rfl
          have h3 := hC.nin_eq
          omega
        · intro p hpw hpr
          have hpr' : p < Paddr.pos ⟨st.rpos.idx, st.rpos.off + rdK o slen st⟩ := hpr
          have h1 : Paddr.pos ⟨st.rpos.idx, st.rpos.off + rdK o slen st⟩
              = st.rpos.idx * PAGESZ + (st.rpos.off + rdK o slen st) := rfl
          have h2 : st.rpos.pos = st.rpos.idx * PAGESZ + st.rpos.off := rfl
          exact pages1_pending hC hkoff p hpw (by omega)
      · show st.rpos.pos ≤ Paddr.pos ⟨st.rpos.idx, st.rpos.off + rdK o slen st⟩
        have h1 : Paddr.pos ⟨st.rpos.idx, st.rpos.off + rdK o slen st⟩
            = st.rpos.idx * PAGESZ + (st.rpos.off + rdK o slen st) := rfl
        have h2 : st.rpos.pos = st.rpos.idx * PAGESZ + st.rpos.off := rfl
        omega

theorem writeStep_nocross {o : Orac} {st : St}
    (hcross : st.wpos.off + wrK o st ≠ PAGESZ) :
    writeStep o st = .ok { st with
      out := fun j =>
        if st.nout ≤ j ∧ j < st.nout + wrK o st
        then st.pages st.wpos.idx (st.wpos.off + (j - st.nout)) else st.out j,
      nout := st.nout + wrK o st,
      wpos := ⟨st.wpos.idx, st.wpos.off + wrK o st⟩ } := by
  rw [writeStep]
  simp only [if_neg hcross]

theorem writeStep_cross {o : Orac} {st : St}
    (hcross : st.wpos.off + wrK o st = PAGESZ) :
    writeStep o st =
      (match page_unpin st.wpos.idx { st with
          out := fun j =>
            if st.nout ≤ j ∧ j < st.nout + wrK o st
            then st.pages st.wpos.idx (st.wpos.off + (j - st.nout)) else st.out j,
          nout := st.nout + wrK o st } with
       | .error e => .error e
       | .ok st2 =>
         match page_free st.wpos.idx st2 with
         | .error e => .error e
         | .ok st3 =>
           match page_pin (st.wpos.idx + 1) o.mmapOkW st3 with
           | .error e => .error e
           | .ok st4 => .ok { st4 with wpos := ⟨st.wpos.idx + 1, 0⟩ }) := by
  rw [writeStep]
  simp only [if_pos hcross]

/-- The freshly written output bytes agree with the input stream: they are
copied out of the pending region, which holds the input bytes. -/
theorem out1_pref {S : Nat → Nat} {slen : Nat} {st : St} (hC : InvC S slen st)
    {k : Nat} (hk2p : st.wpos.pos + k ≤ st.rpos.pos)
    (hoffk : st.wpos.off + k ≤ PAGESZ) :
    ∀ j, j < st.nout + k →
      (fun j => if st.nout ≤ j ∧ j < st.nout + k
        then st.pages st.wpos.idx (st.wpos.off + (j - st.nout))
        else st.out j) j = S j := by
  intro j hj
  have hw : st.wpos.pos = st.wpos.idx * PAGESZ + st.wpos.off := rfl
  have hnout := hC.nout_eq
  dsimp only
  by_cases hjold : j < st.nout
  · rw [if_neg (by omega)]
    exact hC.outPref j hjold
  · push_neg at hjold
    rw [if_pos ⟨hjold, hj⟩]
    have hofflt : st.wpos.off + (j - st.nout) < PAGESZ := by omega
    have hpend := hC.pendingEq (st.wpos.pos + (j - st.nout)) (by omega) (by omega)
    rw [show st.wpos.pos + (j - st.nout)
      = st.wpos.idx * PAGESZ + (st.wpos.off + (j - st.nout)) from by omega] at hpend
    rw [pos_div _ hofflt, pos_mod _ hofflt] at hpend
    rw [hpend]
    congr 1
    omega

/-- The cursor-dependent invariant clauses after a drain page-crossing:
the old drain slot has been unpinned and freed (absent), the next slot
is mapped (pinned idempotently or re-mapped from disk), the written
bytes extend the output, and the drain cursor moves to the next page
boundary. -/
theorem invc_write_cross {S : Nat → Nat} {slen : Nat} {st : St}
    (hC : InvC S slen st) {k : Nat} {stX : Nat → Nat} {fxX : Nat → Bool}
    {nmX ndX nfX : Nat}
    (hk1 : 1 ≤ k) (hcross : st.wpos.off + k = PAGESZ)
    (hk2p : st.wpos.pos + k ≤ st.rpos.pos) (hWR : st.wpos.idx < st.rpos.idx)
    (hsother : ∀ i, i ≠ st.wpos.idx → i ≠ st.wpos.idx + 1 → stX i = st.states i)
    (hsu0 : stX st.wpos.idx = 0)
    (hsv1 : stX (st.wpos.idx + 1) &&& PAGE_MAPPED ≠ 0)
    (hsv2 : stX (st.wpos.idx + 1) &&& PAGE_ONDISK ≠ 0 ↔
      st.states (st.wpos.idx + 1) &&& PAGE_ONDISK ≠ 0)
    (htab : TableInv { st with
      out := fun j => if st.nout ≤ j ∧ j < st.nout + k
        then st.pages st.wpos.idx (st.wpos.off + (j - st.nout)) else st.out j,
      nout := st.nout + k, states := stX, filesExist := fxX,
      nmapped := nmX, nondisk := ndX, nfree := nfX,
      wpos := ⟨st.wpos.idx + 1, 0⟩ }) :
    InvC S slen { st with
      out := fun j => if st.nout ≤ j ∧ j < st.nout + k
        then st.pages st.wpos.idx (st.wpos.off + (j - st.nout)) else st.out j,
      nout := st.nout + k, states := stX, filesExist := fxX,
      nmapped := nmX, nondisk := ndX, nfree := nfX,
      wpos := ⟨st.wpos.idx + 1, 0⟩ } := by
  have hw : st.wpos.pos = st.wpos.idx * PAGESZ + st.wpos.off := rfl
  have hr : st.rpos.pos = st.rpos.idx * PAGESZ + st.rpos.off := rfl
  have hmul : (st.wpos.idx + 1) * PAGESZ = st.wpos.idx * PAGESZ + PAGESZ := by ring
  have hposmk : Paddr.pos ⟨st.wpos.idx + 1, 0⟩ = (st.wpos.idx + 1) * PAGESZ + 0 := rfl
  refine ⟨htab, hC.ridx_lt, hC.roff_lt, PAGESZ_pos, ?_, hC.ntoread_eq,
    hC.eof_nin, hC.nin_eq, ?_, hC.nin_le, ?_, ?_, ?_, ?_⟩
  · -- wr_le
    show Paddr.pos ⟨st.wpos.idx + 1, 0⟩ ≤ st.rpos.pos
    omega
  · -- nout_eq
    show st.nout + k = Paddr.pos ⟨st.wpos.idx + 1, 0⟩
    have hnout := hC.nout_eq
    omega
  · -- mapped_iff
    intro i
    dsimp only
    by_cases hi1 : i = st.wpos.idx + 1
    · subst hi1
      exact iff_of_true hsv1 ⟨le_refl _, by omega, Or.inr (Or.inl rfl)⟩
    · by_cases hi2 : i = st.wpos.idx
      · subst hi2
        rw [hsu0]
        refine iff_of_false (by decide) ?_
        rintro ⟨hcon, -, -⟩
        omega
      · rw [hsother i hi2 hi1]
        have hold := hC.mapped_iff i
        constructor
        · intro hm
          obtain ⟨hwi, hri, hd⟩ := hold.mp hm
          refine ⟨by omega, hri, ?_⟩
          rcases hd with hd | hd | hd
          · exact Or.inl hd
          · exact absurd hd hi2
          · exact Or.inr (Or.inr hd)
        · rintro ⟨hwi, hri, hd⟩
          apply hold.mpr
          refine ⟨by omega, hri, ?_⟩
          rcases hd with hd | hd | hd
          · exact Or.inl hd
          · exact absurd hd hi1
          · exact Or.inr (Or.inr hd)
  · -- ondisk_range
    intro i hdisk
    dsimp only at hdisk ⊢
    by_cases hi1 : i = st.wpos.idx + 1
    · subst hi1
      exact ⟨le_refl _, by omega⟩
    · by_cases hi2 : i = st.wpos.idx
      · subst hi2
        rw [hsu0] at hdisk
        exact absurd rfl hdisk
      · rw [hsother i hi2 hi1] at hdisk
        have hrange := hC.ondisk_range i hdisk
        exact ⟨by omega, hrange.2⟩
  · -- outPref
    intro j hj
    exact out1_pref hC hk2p (by omega) j hj
  · -- pendingEq
    intro p hpw hpr
    have hpw' : Paddr.pos ⟨st.wpos.idx + 1, 0⟩ ≤ p := hpw
    exact hC.pendingEq p (by omega) hpr

/-- The stdout arm preserves the invariant core and never fails, provided
the `ntowrite` value it was entered with respects the cursor gap (which
holds at iteration boundaries and is only widened by the read arm).
The intake cursor, `ntoread`, `eof` and the input side are untouched,
and the drain cursor is monotone. -/
theorem writeStep_spec {S : Nat → Nat} {slen : Nat} (o : Orac) {st : St}
    (hC : InvC S slen st)
    (h1 : st.ntowrite + st.wpos.pos ≤ st.rpos.pos)
    (h2 : st.ntowrite + st.wpos.off ≤ PAGESZ)
    (h3 : st.wpos.off + st.ntowrite = PAGESZ → st.wpos.idx < st.rpos.idx)
    (hg : st.ntowrite ≠ 0) :
    ∃ st2, writeStep o st = .ok st2 ∧ InvC S slen st2 ∧
      st2.rpos = st.rpos ∧ st2.ntoread = st.ntoread ∧
      st.wpos.pos ≤ st2.wpos.pos := by
  have hk1 : 1 ≤ wrK o st := le_min (le_max_right _ 1) (Nat.one_le_iff_ne_zero.mpr hg)
  have hk2 : wrK o st ≤ st.ntowrite := min_le_right _ _
  have hw : st.wpos.pos = st.wpos.idx * PAGESZ + st.wpos.off := rfl
  have hr : st.rpos.pos = st.rpos.idx * PAGESZ + st.rpos.off := rfl
  by_cases hcross : st.wpos.off + wrK o st = PAGESZ
  · -- drain page crossing
    have hkeq : wrK o st = st.ntowrite := by omega
    have hWR : st.wpos.idx < st.rpos.idx := h3 (by omega)
    have hwlt : st.wpos.idx < TABLESZ := by
      have := hC.ridx_lt
      omega
    have hlt1 : st.wpos.idx + 1 < TABLESZ := by
      have := hC.ridx_lt
      omega
    have hk2p : st.wpos.pos + wrK o st ≤ st.rpos.pos := by omega
    rw [writeStep_cross hcross]
    set t1 : St := { st with
      out := fun j => if st.nout ≤ j ∧ j < st.nout + wrK o st
        then st.pages st.wpos.idx (st.wpos.off + (j - st.nout)) else st.out j,
      nout := st.nout + wrK o st } with ht1
    have htab1 : TableInv t1 := hC.table.copy rfl rfl rfl rfl
    have hm : t1.states st.wpos.idx &&& PAGE_MAPPED ≠ 0 := hC.mapped_w
    have hwmono : st.wpos.pos ≤ Paddr.pos ⟨st.wpos.idx + 1, 0⟩ := by
      have hposmk : Paddr.pos ⟨st.wpos.idx + 1, 0⟩ = (st.wpos.idx + 1) * PAGESZ + 0 := rfl
      have hmul : (st.wpos.idx + 1) * PAGESZ = st.wpos.idx * PAGESZ + PAGESZ := by ring
      have := hC.woff_lt
      omega
    rcases states_cases (hC.table.states_lt st.wpos.idx) with h0 | h0 | h0 | h0
    · exfalso
      apply hm
      show st.states st.wpos.idx &&& PAGE_MAPPED = 0
      rw [h0]
      decide
    · -- memory-resident drain page: unpin no-op, free unmaps and refunds
      have ho2 : t1.states st.wpos.idx &&& PAGE_ONDISK = 0 := by
        show st.states st.wpos.idx &&& PAGE_ONDISK = 0
        rw [h0]
        decide
      have hunpin := @page_unpin_mem st.wpos.idx t1 hwlt hm ho2
      rw [hunpin]
      dsimp only
      have hfree := @page_free_mem st.wpos.idx t1 hwlt ho2 hm
      rw [hfree]
      dsimp only
      set t2 : St := { t1 with
        states := updf t1.states st.wpos.idx (t1.states st.wpos.idx &&& 254),
        nmapped := t1.nmapped - 1, nfree := t1.nfree + 1 } with ht2
      have htab2 : TableInv t2 := page_free_table htab1 hfree
      have hsu0m : t2.states st.wpos.idx = 0 := by
        show updf t1.states st.wpos.idx
          (t1.states st.wpos.idx &&& 254) st.wpos.idx = 0
        rw [updf_self]
        show st.states st.wpos.idx &&& 254 = 0
        rw [h0]
        decide
      have ht2next : t2.states (st.wpos.idx + 1) = st.states (st.wpos.idx + 1) := by
        show updf t1.states st.wpos.idx
          (t1.states st.wpos.idx &&& 254) (st.wpos.idx + 1) = st.states (st.wpos.idx + 1)
        rw [updf_ne _ _ _ _ (by omega)]
      by_cases hmap1 : st.states (st.wpos.idx + 1) &&& PAGE_MAPPED ≠ 0
      · -- next page already mapped: pin is a no-op
        have hm2 : t2.states (st.wpos.idx + 1) &&& PAGE_MAPPED ≠ 0 := by
          rw [ht2next]
          exact hmap1
        have hpin := @page_pin_mapped (st.wpos.idx + 1) t2 o.mmapOkW hlt1 hm2
        rw [hpin]
        dsimp only
        refine ⟨_, rfl, ?_, rfl, rfl, hwmono⟩
        exact invc_write_cross hC hk1 hcross hk2p hWR
          (fun i hi2 _ => by
            show updf t1.states st.wpos.idx
              (t1.states st.wpos.idx &&& 254) i = st.states i
            rw [updf_ne _ _ _ _ hi2])
          hsu0m
          (by
            show updf t1.states st.wpos.idx
              (t1.states st.wpos.idx &&& 254) (st.wpos.idx + 1) &&& PAGE_MAPPED ≠ 0
            rw [updf_ne _ _ _ _ (by omega)]
            exact hmap1)
          (by
            show updf t1.states st.wpos.idx
              (t1.states st.wpos.idx &&& 254) (st.wpos.idx + 1) &&& PAGE_ONDISK ≠ 0 ↔
              st.states (st.wpos.idx + 1) &&& PAGE_ONDISK ≠ 0
            rw [updf_ne _ _ _ _ (by omega)])
          (htab2.copy rfl rfl rfl rfl)
      · -- next page is an unmapped disk page: remap it
        have hmap1' : st.states (st.wpos.idx + 1) &&& PAGE_MAPPED = 0 :=
          not_ne_iff.mp hmap1
        have hdisk1 : st.states (st.wpos.idx + 1) &&& PAGE_ONDISK ≠ 0 := by
          by_contra hcon
          exact hmap1 ((hC.mapped_iff (st.wpos.idx + 1)).mpr
            ⟨by omega, by omega, Or.inl hcon⟩)
        have hm2z : t2.states (st.wpos.idx + 1) &&& PAGE_MAPPED = 0 := by
          rw [ht2next]
          exact hmap1'
        have hd2 : t2.states (st.wpos.idx + 1) &&& PAGE_ONDISK ≠ 0 := by
          rw [ht2next]
          exact hdisk1
        have hval : st.states (st.wpos.idx + 1) = 2 := by
          rcases states_cases (hC.table.states_lt (st.wpos.idx + 1)) with hh | hh | hh | hh
          · rw [hh] at hdisk1
            exact absurd (by decide) hdisk1
          · rw [hh] at hmap1'
            exact absurd hmap1' (by decide)
          · exact hh
          · rw [hh] at hmap1'
            exact absurd hmap1' (by decide)
        have hpin := @page_pin_remap (st.wpos.idx + 1) t2 o.mmapOkW hlt1 hm2z hd2
        rw [hpin]
        dsimp only
        refine ⟨_, rfl, ?_, rfl, rfl, hwmono⟩
        refine invc_write_cross hC hk1 hcross hk2p hWR
          (fun i hi2 hi1 => by
            show updf t2.states (st.wpos.idx + 1)
              (t2.states (st.wpos.idx + 1) ||| PAGE_MAPPED) i = st.states i
            rw [updf_ne _ _ _ _ hi1]
            show updf t1.states st.wpos.idx
              (t1.states st.wpos.idx &&& 254) i = st.states i
            rw [updf_ne _ _ _ _ hi2])
          (by
            show updf t2.states (st.wpos.idx + 1)
              (t2.states (st.wpos.idx + 1) ||| PAGE_MAPPED) st.wpos.idx = 0
            rw [updf_ne _ _ _ _ (by omega)]
            exact hsu0m)
          (by
            show updf t2.states (st.wpos.idx + 1)
              (t2.states (st.wpos.idx + 1) ||| PAGE_MAPPED) (st.wpos.idx + 1)
              &&& PAGE_MAPPED ≠ 0
            rw [updf_self, ht2next, hval]
            decide)
          (by
            show updf t2.states (st.wpos.idx + 1)
              (t2.states (st.wpos.idx + 1) ||| PAGE_MAPPED) (st.wpos.idx + 1)
              &&& PAGE_ONDISK ≠ 0 ↔ st.states (st.wpos.idx + 1) &&& PAGE_ONDISK ≠ 0
            rw [updf_self, ht2next, hval]
            decide)
          (((page_pin_table htab2 hpin).copy rfl rfl rfl rfl))
    · exfalso
      apply hm
      show st.states st.wpos.idx &&& PAGE_MAPPED = 0
      rw [h0]
      decide
    · -- disk-backed drain page: unpin unmaps, free unlinks
      have ho2 : t1.states st.wpos.idx &&& PAGE_ONDISK ≠ 0 := by
        show st.states st.wpos.idx &&& PAGE_ONDISK ≠ 0
        rw [h0]
        decide
      have hunpin := @page_unpin_disk st.wpos.idx t1 hwlt hm ho2
      rw [hunpin]
      dsimp only
      set t2 : St := { t1 with
        states := updf t1.states st.wpos.idx (t1.states st.wpos.idx &&& 254),
        nmapped := t1.nmapped - 1 } with ht2
      have htab2 : TableInv t2 := page_unpin_table htab1 hunpin
      have hfo : t2.states st.wpos.idx &&& PAGE_ONDISK ≠ 0 := by
        show updf t1.states st.wpos.idx
          (t1.states st.wpos.idx &&& 254) st.wpos.idx &&& PAGE_ONDISK ≠ 0
        rw [updf_self]
        show (st.states st.wpos.idx &&& 254) &&& PAGE_ONDISK ≠ 0
        rw [h0]
        decide
      have hfm : t2.states st.wpos.idx &&& PAGE_MAPPED = 0 := by
        show updf t1.states st.wpos.idx
          (t1.states st.wpos.idx &&& 254) st.wpos.idx &&& PAGE_MAPPED = 0
        rw [updf_self]
        show (st.states st.wpos.idx &&& 254) &&& PAGE_MAPPED = 0
        rw [h0]
        decide
      have hfree := @page_free_ondisk st.wpos.idx t2 hwlt hfo hfm
      rw [hfree]
      dsimp only
      set t3 : St := { t2 with
        filesExist := updf t2.filesExist st.wpos.idx false,
        states := updf t2.states st.wpos.idx (t2.states st.wpos.idx &&& 253),
        nondisk := t2.nondisk - 1 } with ht3
      have htab3 : TableInv t3 := page_free_table htab2 hfree
      have hsu0d : t3.states st.wpos.idx = 0 := by
        show updf t2.states st.wpos.idx
          (t2.states st.wpos.idx &&& 253) st.wpos.idx = 0
        rw [updf_self]
        show (updf t1.states st.wpos.idx
          (t1.states st.wpos.idx &&& 254) st.wpos.idx) &&& 253 = 0
        rw [updf_self]
        show (st.states st.wpos.idx &&& 254) &&& 253 = 0
        rw [h0]
        decide
      have ht3next : t3.states (st.wpos.idx + 1) = st.states (st.wpos.idx + 1) := by
        show updf t2.states st.wpos.idx
          (t2.states st.wpos.idx &&& 253) (st.wpos.idx + 1) = st.states (st.wpos.idx + 1)
        rw [updf_ne _ _ _ _ (by omega)]
        show updf t1.states st.wpos.idx
          (t1.states st.wpos.idx &&& 254) (st.wpos.idx + 1) = st.states (st.wpos.idx + 1)
        rw [updf_ne _ _ _ _ (by omega)]
      have ht3other : ∀ i, i ≠ st.wpos.idx →
          t3.states i = st.states i := by
        intro i hi2
        show updf t2.states st.wpos.idx
          (t2.states st.wpos.idx &&& 253) i = st.states i
        rw [updf_ne _ _ _ _ hi2]
        show updf t1.states st.wpos.idx
          (t1.states st.wpos.idx &&& 254) i = st.states i
        rw [updf_ne _ _ _ _ hi2]
      by_cases hmap1 : st.states (st.wpos.idx + 1) &&& PAGE_MAPPED ≠ 0
      · have hm2 : t3.states (st.wpos.idx + 1) &&& PAGE_MAPPED ≠ 0 := by
          rw [ht3next]
          exact hmap1
        have hpin := @page_pin_mapped (st.wpos.idx + 1) t3 o.mmapOkW hlt1 hm2
        rw [hpin]
        dsimp only
        refine ⟨_, rfl, ?_, rfl, rfl, hwmono⟩
        exact invc_write_cross hC hk1 hcross hk2p hWR
          (fun i hi2 _ => ht3other i hi2) hsu0d
          (by
            show t3.states (st.wpos.idx + 1) &&& PAGE_MAPPED ≠ 0
            rw [ht3next]
            exact hmap1)
          (by
            show t3.states (st.wpos.idx + 1) &&& PAGE_ONDISK ≠ 0 ↔
              st.states (st.wpos.idx + 1) &&& PAGE_ONDISK ≠ 0
            rw [ht3next])
          (htab3.copy rfl rfl rfl rfl)
      · have hmap1' : st.states (st.wpos.idx + 1) &&& PAGE_MAPPED = 0 :=
          not_ne_iff.mp hmap1
        have hdisk1 : st.states (st.wpos.idx + 1) &&& PAGE_ONDISK ≠ 0 := by
          by_contra hcon
          exact hmap1 ((hC.mapped_iff (st.wpos.idx + 1)).mpr
            ⟨by omega, by omega, Or.inl hcon⟩)
        have hm2z : t3.states (st.wpos.idx + 1) &&& PAGE_MAPPED = 0 := by
          rw [ht3next]
          exact hmap1'
        have hd2 : t3.states (st.wpos.idx + 1) &&& PAGE_ONDISK ≠ 0 := by
          rw [ht3next]
          exact hdisk1
        have hval : st.states (st.wpos.idx + 1) = 2 := by
          rcases states_cases (hC.table.states_lt (st.wpos.idx + 1)) with hh | hh | hh | hh
          · rw [hh] at hdisk1
            exact absurd (by decide) hdisk1
          · rw [hh] at hmap1'
            exact absurd hmap1' (by decide)
          · exact hh
          · rw [hh] at hmap1'
            exact absurd hmap1' (by decide)
        have hpin := @page_pin_remap (st.wpos.idx + 1) t3 o.mmapOkW hlt1 hm2z hd2
        rw [hpin]
        dsimp only
        refine ⟨_, rfl, ?_, rfl, rfl, hwmono⟩
        refine invc_write_cross hC hk1 hcross hk2p hWR
          (fun i hi2 hi1 => by
            show updf t3.states (st.wpos.idx + 1)
              (t3.states (st.wpos.idx + 1) ||| PAGE_MAPPED) i = st.states i
            rw [updf_ne _ _ _ _ hi1]
            exact ht3other i hi2)
          (by
            show updf t3.states (st.wpos.idx + 1)
              (t3.states (st.wpos.idx + 1) ||| PAGE_MAPPED) st.wpos.idx = 0
            rw [updf_ne _ _ _ _ (by omega)]
            exact hsu0d)
          (by
            show updf t3.states (st.wpos.idx + 1)
              (t3.states (st.wpos.idx + 1) ||| PAGE_MAPPED) (st.wpos.idx + 1)
              &&& PAGE_MAPPED ≠ 0
            rw [updf_self, ht3next, hval]
            decide)
          (by
            show updf t3.states (st.wpos.idx + 1)
              (t3.states (st.wpos.idx + 1) ||| PAGE_MAPPED) (st.wpos.idx + 1)
              &&& PAGE_ONDISK ≠ 0 ↔ st.states (st.wpos.idx + 1) &&& PAGE_ONDISK ≠ 0
            rw [updf_self, ht3next, hval]
            decide)
          (((page_pin_table htab3 hpin).copy rfl rfl rfl rfl))
  · -- no crossing
    refine ⟨_, writeStep_nocross hcross, ?_, rfl, rfl, ?_⟩
    · refine ⟨hC.table.copy rfl rfl rfl rfl, hC.ridx_lt, hC.roff_lt,
        by dsimp only; omega, ?_, hC.ntoread_eq, hC.eof_nin, hC.nin_eq,
        ?_, hC.nin_le, hC.mapped_iff, hC.ondisk_range, ?_, ?_⟩
      · show Paddr.pos ⟨st.wpos.idx, st.wpos.off + wrK o st⟩ ≤ st.rpos.pos
        have hposmk : Paddr.pos ⟨st.wpos.idx, st.wpos.off + wrK o st⟩
            = st.wpos.idx * PAGESZ + (st.wpos.off + wrK o st) := rfl
        omega
      · show st.nout + wrK o st = Paddr.pos ⟨st.wpos.idx, st.wpos.off + wrK o st⟩
        have hposmk : Paddr.pos ⟨st.wpos.idx, st.wpos.off + wrK o st⟩
            = st.wpos.idx * PAGESZ + (st.wpos.off + wrK o st) := rfl
        have hnout := hC.nout_eq
        omega
      · intro j hj
        exact out1_pref hC (by omega) (by omega) j hj
      · intro p hpw hpr
        have hpw' : Paddr.pos ⟨st.wpos.idx, st.wpos.off + wrK o st⟩ ≤ p := hpw
        have hposmk : Paddr.pos ⟨st.wpos.idx, st.wpos.off + wrK o st⟩
            = st.wpos.idx * PAGESZ + (st.wpos.off + wrK o st) := rfl
        exact hC.pendingEq p (by omega) hpr
    · show st.wpos.pos ≤ Paddr.pos ⟨st.wpos.idx, st.wpos.off + wrK o st⟩
      have hposmk : Paddr.pos ⟨st.wpos.idx, st.wpos.off + wrK o st⟩
          = st.wpos.idx * PAGESZ + (st.wpos.off + wrK o st) := rfl
      omega

/-! ### One whole iteration, runs, and reachable states -/

theorem invc_recomp {S : Nat → Nat} {slen : Nat} {st : St} (h : InvC S slen st) :
    Inv S slen (recompNtowrite st) :=
  ⟨⟨h.table.copy rfl rfl rfl rfl, h.ridx_lt, h.roff_lt, h.woff_lt, h.wr_le,
    h.ntoread_eq, h.eof_nin, h.nin_eq, h.nout_eq, h.nin_le, h.mapped_iff,
    h.ondisk_range, h.outPref, h.pendingEq⟩, rfl⟩

/-- At an iteration boundary, `ntowrite` never exceeds the cursor gap, fits
in the current drain page, and reaches the page end only when the
cursors are on different pages. -/
theorem ntowrite_facts {S : Nat → Nat} {slen : Nat} {st : St} (hI : Inv S slen st) :
    st.ntowrite + st.wpos.pos ≤ st.rpos.pos ∧
    st.ntowrite + st.wpos.off ≤ PAGESZ ∧
    (st.wpos.off + st.ntowrite = PAGESZ → st.wpos.idx < st.rpos.idx) := by
  have hC := hI.toInvC
  have hw : st.wpos.pos = st.wpos.idx * PAGESZ + st.wpos.off := rfl
  have hr : st.rpos.pos = st.rpos.idx * PAGESZ + st.rpos.off := rfl
  have hro := hC.roff_lt
  have hwo := hC.woff_lt
  have hle := hC.wr_le
  have hidx := hC.widx_le
  have hnw := hI.ntowrite_eq
  by_cases heq : st.wpos.idx = st.rpos.idx
  · rw [if_pos heq] at hnw
    rw [heq] at hw
    refine ⟨by omega, by omega, fun hh => by omega⟩
  · rw [if_neg heq] at hnw
    have hlt : st.wpos.idx < st.rpos.idx := by omega
    have hmul := idx_mul_le hlt
    exact ⟨by omega, by omega, fun _ => hlt⟩

/-- One whole loop iteration from an iteration boundary: either it reaches
the next boundary with the invariant intact and both cursors monotone,
or it aborts with the out-of-pages error. -/
theorem iter_spec {S : Nat → Nat} {slen : Nat} (o : Orac) {st : St}
    (hI : Inv S slen st) :
    (∃ st', iter S slen o st = .ok st' ∧ Inv S slen st' ∧
      st.rpos.pos ≤ st'.rpos.pos ∧ st.wpos.pos ≤ st'.wpos.pos) ∨
    iter S slen o st = .error .outOfPages := by
  have hC := hI.toInvC
  obtain ⟨hf1, hf2, hf3⟩ := ntowrite_facts hI
  simp only [iter]
  by_cases hr : st.ntoread ≠ 0 ∧ o.rdReady
  · rcases readStep_spec o hI hr.1 with ⟨st1, hEq, hC1, hnw, hwp, hrmono, hrimono⟩ | hErr
    · rw [if_pos hr, hEq]
      dsimp only
      by_cases hwg : st.ntowrite ≠ 0 ∧ o.wrReady
      · have h1 : st1.ntowrite + st1.wpos.pos ≤ st1.rpos.pos := by
          rw [hnw, hwp]
          exact le_trans hf1 (by omega)
        have h2 : st1.ntowrite + st1.wpos.off ≤ PAGESZ := by
          rw [hnw, hwp]
          exact hf2
        have h3 : st1.wpos.off + st1.ntowrite = PAGESZ → st1.wpos.idx < st1.rpos.idx := by
          rw [hnw, hwp]
          intro hh
          exact lt_of_lt_of_le (hf3 hh) hrimono
        have hg1 : st1.ntowrite ≠ 0 := by
          rw [hnw]
          exact hwg.1
        obtain ⟨st2, hEq2, hC2, hrp2, hnr2, hwmono2⟩ := writeStep_spec o hC1 h1 h2 h3 hg1
        rw [if_pos hwg, hEq2]
        dsimp only
        refine Or.inl ⟨_, rfl, invc_recomp hC2, ?_, ?_⟩
        · show st.rpos.pos ≤ st2.rpos.pos
          rw [hrp2]
          exact hrmono
        · show st.wpos.pos ≤ st2.wpos.pos
          rw [← hwp]
          exact hwmono2
      · rw [if_neg hwg]
        dsimp only
        refine Or.inl ⟨_, rfl, invc_recomp hC1, hrmono, ?_⟩
        show st.wpos.pos ≤ st1.wpos.pos
        rw [hwp]
    · rw [if_pos hr, hErr]
      exact Or.inr rfl
  · rw [if_neg hr]
    dsimp only
    by_cases hwg : st.ntowrite ≠ 0 ∧ o.wrReady
    · obtain ⟨st2, hEq2, hC2, hrp2, hnr2, hwmono2⟩ :=
        writeStep_spec o hC hf1 hf2 hf3 hwg.1
      rw [if_pos hwg, hEq2]
      dsimp only
      refine Or.inl ⟨_, rfl, invc_recomp hC2, ?_, hwmono2⟩
      show st.rpos.pos ≤ st2.rpos.pos
      rw [hrp2]
    · rw [if_neg hwg]
      dsimp only
      exact Or.inl ⟨_, rfl, invc_recomp hC, le_refl _, le_refl _⟩

theorem run_inv {S : Nat → Nat} {slen : Nat} {os : List Orac} {st st' : St}
    (hI : Inv S slen st) (h : run S slen os st = .ok st') :
    Inv S slen st' ∧ st.rpos.pos ≤ st'.rpos.pos ∧ st.wpos.pos ≤ st'.wpos.pos := by
  induction os generalizing st with
  | nil =>
    simp only [run] at h
    injection h with h'
    subst h'
    exact ⟨hI, le_refl _, le_refl _⟩
  | cons o os ih =>
    simp only [run] at h
    by_cases hdone : st.ntoread = 0 ∧ st.ntowrite = 0
    · rw [if_pos hdone] at h
      injection h with h'
      subst h'
      exact ⟨hI, le_refl _, le_refl _⟩
    · rw [if_neg hdone] at h
      rcases iter_spec o hI with ⟨st1, hEq, hI1, hr1, hw1⟩ | hErr
      · rw [hEq] at h
        dsimp only at h
        obtain ⟨hI', hr2, hw2⟩ := ih hI1 h
        exact ⟨hI', le_trans hr1 hr2, le_trans hw1 hw2⟩
      · rw [hErr] at h
        simp at h

theorem tableInv_init (memsize : Nat) : TableInv (stInit memsize) := by
  refine ⟨fun i => by show (0 : Nat) < 4; decide,
    fun i => by show false = true ↔ (0 : Nat) &&& PAGE_ONDISK ≠ 0; decide, ?_, ?_⟩
  · rw [Finset.filter_false_of_mem
      (fun x _ => by show ¬ ((0 : Nat) &&& PAGE_MAPPED ≠ 0); decide),
      Finset.card_empty]
    rfl
  · rw [Finset.filter_false_of_mem
      (fun x _ => by show ¬ ((0 : Nat) &&& PAGE_ONDISK ≠ 0); decide),
      Finset.card_empty]
    rfl

theorem inv_init_aux {S : Nat → Nat} {slen v nm nd nf : Nat} {pg : Nat → Nat → Nat}
    {fx : Nat → Bool} {ou : Nat → Nat} {hd : Bool}
    (hv : v = 1 ∨ v = 3)
    (htab : TableInv ⟨updf (fun _ => 0) 0 v, pg, fx, nm, nd, nf, hd,
      ⟨0, 0⟩, ⟨0, 0⟩, PAGESZ, 0, 0, ou, 0, false⟩) :
    Inv S slen ⟨updf (fun _ => 0) 0 v, pg, fx, nm, nd, nf, hd,
      ⟨0, 0⟩, ⟨0, 0⟩, PAGESZ, 0, 0, ou, 0, false⟩ := by
  refine ⟨⟨htab, TABLESZ_pos, PAGESZ_pos, PAGESZ_pos,
    (by show (0 : Nat) * PAGESZ + 0 ≤ 0 * PAGESZ + 0; omega),
    by simp, by simp,
    (by show (0 : Nat) = 0 * PAGESZ + 0; omega),
    (by show (0 : Nat) = 0 * PAGESZ + 0; omega),
    Nat.zero_le _, ?_, ?_, ?_, ?_⟩, by simp⟩
  · intro i
    dsimp only
    by_cases hi : i = 0
    · subst hi
      rw [show updf (fun _ : Nat => (0 : Nat)) 0 v 0 = v from updf_self _ _ _]
      rcases hv with rfl | rfl
      · exact iff_of_true (by decide) ⟨le_refl _, le_refl _, Or.inr (Or.inl rfl)⟩
      · exact iff_of_true (by decide) ⟨le_refl _, le_refl _, Or.inr (Or.inl rfl)⟩
    · rw [updf_ne _ _ _ _ hi]
      exact iff_of_false (show ¬ ((0 : Nat) &&& PAGE_MAPPED ≠ 0) by decide)
        (by rintro ⟨h1, h2, -⟩; omega)
  · intro i hdisk
    dsimp only at hdisk ⊢
    by_cases hi : i = 0
    · subst hi
      exact ⟨le_refl _, le_refl _⟩
    · rw [updf_ne _ _ _ _ hi] at hdisk
      exact absurd (show (0 : Nat) &&& PAGE_ONDISK = 0 by decide) hdisk
  · intro j hj
    exact absurd hj (show ¬ (j < 0) by omega)
  · intro p hp1 hp2
    exact absurd (lt_of_le_of_lt hp1 hp2) (lt_irrefl _)

/-- The state right after the initial `page_pin(0)` satisfies the loop
invariant. -/
theorem inv_init {S : Nat → Nat} {slen memsize : Nat} {a0 : Bool} {st : St}
    (h : page_pin 0 a0 (stInit memsize) = .ok st) : Inv S slen st := by
  have hz : (stInit memsize).states 0 = 0 := rfl
  by_cases hf : (stInit memsize).nfree = 0
  · rw [page_pin_spill a0 TABLESZ_pos hz hf] at h
    injection h with h'
    subst h'
    exact inv_init_aux (Or.inr rfl)
      (page_pin_table (tableInv_init memsize)
        (page_pin_spill a0 TABLESZ_pos hz hf))
  · cases ha : a0
    · rw [ha] at h
      rw [page_pin_enomem TABLESZ_pos hz hf] at h
      injection h with h'
      subst h'
      exact inv_init_aux (Or.inr rfl)
        (page_pin_table (tableInv_init memsize)
          (page_pin_enomem TABLESZ_pos hz hf))
    · rw [ha] at h
      rw [page_pin_anon TABLESZ_pos hz hf] at h
      injection h with h'
      subst h'
      exact inv_init_aux (Or.inl rfl)
        (page_pin_table (tableInv_init memsize)
          (page_pin_anon TABLESZ_pos hz hf))

/-- Every reachable iteration-boundary state satisfies the loop invariant. -/
theorem reachable_inv {S : Nat → Nat} {slen memsize : Nat} {a0 : Bool} {st : St}
    (h : Reachable S slen memsize a0 st) : Inv S slen st := by
  induction h with
  | init st h0 => exact inv_init h0
  | step st o st' _ hcond hiter ih =>
    rcases iter_spec o ih with ⟨st2, hEq, hI2, -, -⟩ | hErr
    · rw [hEq] at hiter
      injection hiter with h'
      subst h'
      exact hI2
    · rw [hErr] at hiter
      cases hiter

theorem reachable_run {S : Nat → Nat} {slen memsize : Nat} {a0 : Bool}
    {os : List Orac} {st st' : St} (h : Reachable S slen memsize a0 st)
    (hrun : run S slen os st = .ok st') : Reachable S slen memsize a0 st' := by
  induction os generalizing st with
  | nil =>
    simp only [run] at hrun
    injection hrun with h'
    subst h'
    exact h
  | cons o os ih =>
    simp only [run] at hrun
    by_cases hdone : st.ntoread = 0 ∧ st.ntowrite = 0
    · rw [if_pos hdone] at hrun
      injection hrun with h'
      subst h'
      exact h
    · rw [if_neg hdone] at hrun
      cases hEq : iter S slen o st with
      | error e =>
        rw [hEq] at hrun
        simp at hrun
      | ok st1 =>
        rw [hEq] at hrun
        dsimp only at hrun
        exact ih (Reachable.step st o st1 h hdone hEq) hrun

/-- Every `.ok` outcome of `mainRun` is a reachable boundary state. -/
theorem reachable_mainRun {S : Nat → Nat} {slen memsize : Nat} {a0 : Bool}
    {os : List Orac} {st : St} (h : mainRun S slen memsize a0 os = .ok st) :
    Reachable S slen memsize a0 st := by
  simp only [mainRun] at h
  cases h0 : page_pin 0 a0 (stInit memsize) with
  | error e =>
    rw [h0] at h
    simp at h
  | ok st0 =>
    rw [h0] at h
    dsimp only at h
    exact reachable_run (Reachable.init st0 h0) h

theorem inv_mainRun {S : Nat → Nat} {slen memsize : Nat} {a0 : Bool}
    {os : List Orac} {st : St} (h : mainRun S slen memsize a0 os = .ok st) :
    Inv S slen st :=
  reachable_inv (reachable_mainRun h)

/-- At an iteration boundary, the loop condition is false exactly when end
of input has been latched and the cursors coincide. -/
theorem done_iff {S : Nat → Nat} {slen : Nat} {st : St} (hI : Inv S slen st) :
    (st.ntoread = 0 ∧ st.ntowrite = 0) ↔ (st.eof = true ∧ st.rpos = st.wpos) := by
  have hC := hI.toInvC
  have hw : st.wpos.pos = st.wpos.idx * PAGESZ + st.wpos.off := rfl
  have hr : st.rpos.pos = st.rpos.idx * PAGESZ + st.rpos.off := rfl
  have hro := hC.roff_lt
  have hwo := hC.woff_lt
  have hle := hC.wr_le
  constructor
  · rintro ⟨h1, h2⟩
    have he : st.eof = true := by
      cases heof : st.eof
      · rw [hC.ntoread_eq, heof] at h1
        simp at h1
        omega
      · rfl
    refine ⟨he, ?_⟩
    have hnw := hI.ntowrite_eq
    by_cases heq : st.wpos.idx = st.rpos.idx
    · rw [if_pos heq] at hnw
      have hw' : st.wpos.pos = st.rpos.idx * PAGESZ + st.wpos.off := by
        rw [hw, heq]
      have hoff : st.rpos.off = st.wpos.off := by omega
      have e1 : st.rpos = ⟨st.rpos.idx, st.rpos.off⟩ := rfl
      have e2 : st.wpos = ⟨st.wpos.idx, st.wpos.off⟩ := rfl
      rw [e1, e2, heq, hoff]
    · rw [if_neg heq] at hnw
      exfalso
      omega
  · rintro ⟨he, hcur⟩
    constructor
    · rw [hC.ntoread_eq, he]
      rfl
    · rw [hI.ntowrite_eq, hcur]
      simp

/-! ### Concrete runs used to witness and refute the claims

`wS`/`wOs`: a tiny one-byte run through the in-memory path that drains
cleanly (used by witnesses).  The other runs exercise the spill path and
are used as counterexamples. -/

def wS : Nat → Nat := fun _ => 7

def wOs : List Orac :=
  [⟨true, false, 1, 0, true, true⟩, ⟨true, true, 1, 1, true, true⟩]

def wst : St := ((mainRun wS 1 (4 * PAGESZ) true wOs).toOption).getD (stInit 0)

theorem wst_run : mainRun wS 1 (4 * PAGESZ) true wOs = .ok wst := rfl

theorem wst_reach : Reachable wS 1 (4 * PAGESZ) true wst :=
  reachable_mainRun wst_run

/-- All-zero input used by the counterexample runs. -/
def S0 : Nat → Nat := fun _ => 0

/-! ### The claims -/

/-- C1: for every input byte sequence `S` of length at most
`TABLESZ * PAGESZ` on stdin, a complete run of the program (one whose
loop condition has become false) has written exactly the input to
stdout, byte for byte, in order, with no duplication, loss or framing
(`nout = slen` and `out` agrees with `S` below it), and `main` returns
0. -/
theorem c1_passthrough : ∀ (S : Nat → Nat) (slen memsize : Nat) (a0 : Bool)
    (os : List Orac) (st : St), slen ≤ TABLESZ * PAGESZ →
    mainRun S slen memsize a0 os = .ok st →
    st.ntoread = 0 → st.ntowrite = 0 →
    st.nout = slen ∧ (∀ j, j < slen → st.out j = S j) ∧
    mainExit S slen memsize a0 os = some 0 := by
  intro S slen memsize a0 os st _hcap hrun h1 h2
  have hI := inv_mainRun hrun
  have hC := hI.toInvC
  have hdone := (done_iff hI).mp ⟨h1, h2⟩
  have hnin : st.nin = slen := hC.eof_nin hdone.1
  have hpos : st.rpos.pos = st.wpos.pos := by rw [hdone.2]
  have hnout : st.nout = slen := by
    rw [hC.nout_eq, ← hpos, ← hC.nin_eq, hnin]
  refine ⟨hnout, ?_, ?_⟩
  · intro j hj
    exact hC.outPref j (by omega)
  · simp only [mainExit, hrun]
    rw [if_pos ⟨h1, h2⟩]

/-- Witness for C1: the one-byte run drains cleanly, emits its byte, and
exits 0. -/
theorem c1_witness : wst.nout = 1 ∧ wst.out 0 = wS 0 ∧
    mainExit wS 1 (4 * PAGESZ) true wOs = some 0 :=
  (fun h => ⟨h.1, h.2.1 0 (by decide), h.2.2⟩)
    (c1_passthrough wS 1 (4 * PAGESZ) true wOs wst (by decide) wst_run
      (by decide) (by decide))

/-- C6: at every boundary of a run, the loop condition is false (both
derived counts zero) exactly when end of input has been latched and
the two cursors are equal; and when the loop has exited, the program
returns 0. -/
theorem c6_termination : ∀ (S : Nat → Nat) (slen memsize : Nat) (a0 : Bool)
    (os : List Orac) (st : St), mainRun S slen memsize a0 os = .ok st →
    (((st.ntoread = 0 ∧ st.ntowrite = 0) ↔ (st.eof = true ∧ st.rpos = st.wpos)) ∧
      (st.ntoread = 0 → st.ntowrite = 0 →
        mainExit S slen memsize a0 os = some 0)) := by
  intro S slen memsize a0 os st hrun
  refine ⟨done_iff (inv_mainRun hrun), fun h1 h2 => ?_⟩
  simp only [mainExit, hrun]
  rw [if_pos ⟨h1, h2⟩]

/-- Witness for C6 at the concrete one-byte run. -/
theorem c6_witness :
    ((wst.ntoread = 0 ∧ wst.ntowrite = 0) ↔ (wst.eof = true ∧ wst.rpos = wst.wpos)) ∧
    (wst.ntoread = 0 → wst.ntowrite = 0 →
      mainExit wS 1 (4 * PAGESZ) true wOs = some 0) :=
  c6_termination wS 1 (4 * PAGESZ) true wOs wst wst_run

/-- C7: at every reachable iteration boundary the drain cursor (code
`wpos`) is lexicographically at most the intake cursor (code `rpos`),
and continuing the run from there moves both cursors lexicographically
forward only. -/
theorem c7_monotone : ∀ (S : Nat → Nat) (slen memsize : Nat) (a0 : Bool)
    (st : St), Reachable S slen memsize a0 st →
    (lexLe st.wpos st.rpos ∧
      ∀ (os : List Orac) (st' : St), run S slen os st = .ok st' →
        lexLe st.rpos st'.rpos ∧ lexLe st.wpos st'.wpos) := by
  intro S slen memsize a0 st h
  have hI := reachable_inv h
  have hC := hI.toInvC
  refine ⟨lexLe_of_pos_le hC.wr_le hC.roff_lt, ?_⟩
  intro os st' hrun
  obtain ⟨hI', hr, hw⟩ := run_inv hI hrun
  exact ⟨lexLe_of_pos_le hr hI'.toInvC.roff_lt,
    lexLe_of_pos_le hw hI'.toInvC.woff_lt⟩

/-- Witness for C7 at the concrete one-byte run (continued by the empty
schedule). -/
theorem c7_witness : lexLe wst.wpos wst.rpos ∧
    (lexLe wst.rpos wst.rpos ∧ lexLe wst.wpos wst.wpos) :=
  ⟨(c7_monotone wS 1 (4 * PAGESZ) true wst wst_reach).1,
   (c7_monotone wS 1 (4 * PAGESZ) true wst wst_reach).2 [] wst rfl⟩

/-- C8: at every reachable iteration boundary, `nmapped` is the number of
slots with the MAPPED bit, `nondisk` the number of slots with the
ON_DISK bit, and `nfree` is non-negative (it is a `size_t` whose
decrements are guarded, modelled as `Nat`). -/
theorem c8_counters : ∀ (S : Nat → Nat) (slen memsize : Nat) (a0 : Bool)
    (st : St), Reachable S slen memsize a0 st →
    (st.nmapped = ((Finset.range TABLESZ).filter
        (fun i => st.states i &&& PAGE_MAPPED ≠ 0)).card ∧
     st.nondisk = ((Finset.range TABLESZ).filter
        (fun i => st.states i &&& PAGE_ONDISK ≠ 0)).card ∧
     0 ≤ st.nfree) :=
  fun _ _ _ _ st h =>
    ⟨(reachable_inv h).toInvC.table.nmapped_eq,
     (reachable_inv h).toInvC.table.nondisk_eq, Nat.zero_le _⟩

/-- Witness for C8 at the concrete one-byte run. -/
theorem c8_witness :
    wst.nmapped = ((Finset.range TABLESZ).filter
        (fun i => wst.states i &&& PAGE_MAPPED ≠ 0)).card ∧
    wst.nondisk = ((Finset.range TABLESZ).filter
        (fun i => wst.states i &&& PAGE_ONDISK ≠ 0)).card ∧
    0 ≤ wst.nfree :=
  c8_counters wS 1 (4 * PAGESZ) true wst wst_reach

/-! ### C2: slot residency -/

/-- The spec's residency statement: at every iteration boundary, exactly
the slots between the drain index and the intake index (inclusive) are
mapped. -/
def residencyClaim : Prop :=
  ∀ (S : Nat → Nat) (slen memsize : Nat) (a0 : Bool) (st : St),
    Reachable S slen memsize a0 st → ∀ i, i < TABLESZ →
      ((st.wpos.idx ≤ i ∧ i ≤ st.rpos.idx) ↔ st.states i &&& PAGE_MAPPED ≠ 0)

/-- Two full-page reads with no memory budget: the intake cursor crosses
twice, unpinning the interior on-disk slot 1. -/
def c2Os : List Orac :=
  [⟨true, false, PAGESZ, 0, true, true⟩, ⟨true, false, PAGESZ, 0, true, true⟩]

def c2st : St := ((mainRun S0 (4 * PAGESZ) 0 true c2Os).toOption).getD (stInit 0)

theorem c2st_run : mainRun S0 (4 * PAGESZ) 0 true c2Os = .ok c2st := rfl

theorem c2st_reach : Reachable S0 (4 * PAGESZ) 0 true c2st :=
  reachable_mainRun c2st_run

/-- C2 (refuted): at the boundary after two full-page intake crossings
with no memory budget, slot 1 lies strictly between the drain index 0 and
the intake index 2 yet its MAPPED bit is clear (`page_unpin` cleared it
when the intake cursor left the on-disk page), so the claimed residency
equivalence fails at `i = 1`. -/
theorem c2_counterexample : ¬ residencyClaim := fun h =>
  absurd ((h S0 (4 * PAGESZ) 0 true c2st c2st_reach 1 (by decide)).mp
    ⟨by decide, by decide⟩) (by decide)

/-- C2 (amended): a slot is MAPPED iff it lies between the drain index and
the intake index and, additionally, it is not an interior on-disk slot:
on-disk slots are only mapped while one of the two cursors is on them. -/
theorem c2_amended : ∀ (S : Nat → Nat) (slen memsize : Nat) (a0 : Bool)
    (st : St), Reachable S slen memsize a0 st → ∀ i,
    (st.states i &&& PAGE_MAPPED ≠ 0 ↔
      (st.wpos.idx ≤ i ∧ i ≤ st.rpos.idx ∧
        (st.states i &&& PAGE_ONDISK = 0 ∨ i = st.wpos.idx ∨ i = st.rpos.idx))) :=
  fun _ _ _ _ _ h i => (reachable_inv h).toInvC.mapped_iff i

/-- Witness for the amended C2 at the concrete one-byte run, slot 0. -/
theorem c2_witness :
    wst.states 0 &&& PAGE_MAPPED ≠ 0 ↔
      (wst.wpos.idx ≤ 0 ∧ 0 ≤ wst.rpos.idx ∧
        (wst.states 0 &&& PAGE_ONDISK = 0 ∨ 0 = wst.wpos.idx ∨ 0 = wst.rpos.idx)) :=
  c2_amended wS 1 (4 * PAGESZ) true wst wst_reach 0

/-! ### C3: stickiness of the exhausted memory budget -/

/-- The spec's statement: once an anonymous allocation failure has forced
`nfree` to 0 (observable as the headroom having been released), `nfree`
stays 0 for the remainder of the run. -/
def nfreeStickyClaim : Prop :=
  ∀ (S : Nat → Nat) (slen memsize : Nat) (a0 : Bool) (os1 os2 : List Orac)
    (st1 st2 : St),
    mainRun S slen memsize a0 os1 = .ok st1 →
    st1.headroom = false → st1.nfree = 0 →
    run S slen os2 st1 = .ok st2 → st2.nfree = 0

/-- One full-page read whose crossing pin hits `ENOMEM` (`mmapOkR = false`):
`nfree` is forced to 0 and the headroom is released. -/
def c3Os1 : List Orac := [⟨true, false, PAGESZ, 0, false, true⟩]

/-- Then one full-page write: the drain crossing frees the in-memory page 0,
which increments `nfree` back to 1. -/
def c3Os2 : List Orac := [⟨false, true, 0, PAGESZ, true, true⟩]

def c3st1 : St :=
  ((mainRun S0 (4 * PAGESZ) (4 * PAGESZ) true c3Os1).toOption).getD (stInit 0)

theorem c3st1_run : mainRun S0 (4 * PAGESZ) (4 * PAGESZ) true c3Os1 = .ok c3st1 :=
  rfl

def c3st2 : St := ((run S0 (4 * PAGESZ) c3Os2 c3st1).toOption).getD (stInit 0)

theorem c3st2_run : run S0 (4 * PAGESZ) c3Os2 c3st1 = .ok c3st2 := rfl

/-- C3 (refuted): after the ENOMEM spill (`nfree = 0`, headroom released),
the very next drain crossing calls `page_free` on the in-memory page 0 and
`nfree` comes back to 1, so the budget is not sticky. -/
theorem c3_counterexample : ¬ nfreeStickyClaim := fun h =>
  absurd (h S0 (4 * PAGESZ) (4 * PAGESZ) true c3Os1 c3Os2 c3st1 c3st2
    c3st1_run (by decide) (by decide) c3st2_run) (by decide)

theorem land254_mapped (x : Nat) (h : x < 4) : x &&& 254 &&& PAGE_MAPPED = 0 := by
  interval_cases x <;> decide

/-- C3 (amended): while `nfree = 0` every materialization of an absent slot
takes the disk-creation path (the result is on disk, its spool file exists,
and `nfree` stays 0 across the pin); but `nfree` is not sticky: freeing an
in-memory page (`states = MAPPED`) increments it again. -/
theorem c3_amended : ∀ (t u : St) (idx jdx : Nat) (a : Bool),
    idx < TABLESZ → t.states idx = 0 → t.nfree = 0 →
    jdx < TABLESZ → u.states jdx = 1 →
    ((∃ t', page_pin idx a t = .ok t' ∧ t'.states idx &&& PAGE_ONDISK ≠ 0 ∧
        t'.filesExist idx = true ∧ t'.nfree = 0) ∧
     (∃ u', page_free jdx u = .ok u' ∧ u'.nfree = u.nfree + 1)) := by
  intro t u idx jdx a hlt h0 hf hjl hu
  constructor
  · refine ⟨_, page_pin_spill a hlt h0 hf, ?_, ?_, ?_⟩
    · dsimp only
      rw [updf_self]
      decide
    · dsimp only
      rw [updf_self]
    · exact hf
  · refine ⟨_, page_free_mem hjl ?_ ?_, rfl⟩
    · rw [hu]
      decide
    · rw [hu]
      decide

/-- Witness for the amended C3 at the post-spill state `c3st1`
(slot 2 absent with `nfree = 0`; slot 0 an in-memory page). -/
theorem c3_witness :
    ((∃ t', page_pin 2 true c3st1 = .ok t' ∧ t'.states 2 &&& PAGE_ONDISK ≠ 0 ∧
        t'.filesExist 2 = true ∧ t'.nfree = 0) ∧
     (∃ u', page_free 0 c3st1 = .ok u' ∧ u'.nfree = c3st1.nfree + 1)) :=
  c3_amended c3st1 c3st1 2 0 true (by decide) (by decide) (by decide)
    (by decide) (by decide)

/-! ### C4: spool-file cleanup -/

/-- The spec's statement: a run that drains completely leaves no spool file
behind for any slot. -/
def spoolCleanupClaim : Prop :=
  ∀ (S : Nat → Nat) (slen memsize : Nat) (a0 : Bool) (os : List Orac)
    (st : St),
    mainRun S slen memsize a0 os = .ok st → st.ntoread = 0 → st.ntowrite = 0 →
    ∀ i, st.filesExist i = false

/-- A one-byte input with no memory budget: the single page spills to disk,
is drained without a page crossing, and the run finishes cleanly. -/
def c4Os : List Orac :=
  [⟨true, false, 1, 0, true, true⟩, ⟨true, true, 1, 1, true, true⟩]

def c4st : St := ((mainRun S0 1 0 true c4Os).toOption).getD (stInit 0)

theorem c4st_run : mainRun S0 1 0 true c4Os = .ok c4st := rfl

/-- C4 (refuted): in the clean one-byte spill run, the program exits with
the loop condition false while the spool file of slot 0 still exists —
`page_free` only runs on a drain page-crossing, which never happens for the
final partial page. -/
theorem c4_counterexample : ¬ spoolCleanupClaim := fun h =>
  absurd (h S0 1 0 true c4Os c4st c4st_run (by decide) (by decide) 0)
    (by decide)

/-- C4 (amended): after a complete drain, no spool file remains for any
slot other than the one under the (coinciding) cursors; only the final
page's file can survive. -/
theorem c4_amended : ∀ (S : Nat → Nat) (slen memsize : Nat) (a0 : Bool)
    (os : List Orac) (st : St),
    mainRun S slen memsize a0 os = .ok st → st.ntoread = 0 → st.ntowrite = 0 →
    ∀ i, i ≠ st.wpos.idx → st.filesExist i = false := by
  intro S slen memsize a0 os st hrun h1 h2 i hi
  have hI := inv_mainRun hrun
  have hC := hI.toInvC
  have hdone := (done_iff hI).mp ⟨h1, h2⟩
  by_contra hcon
  have htrue : st.filesExist i = true := by
    cases hfe : st.filesExist i
    · exact absurd hfe hcon
    · rfl
  have hod := (hC.table.files_iff i).mp htrue
  have hrange := hC.ondisk_range i hod
  have hcur : st.rpos.idx = st.wpos.idx := by rw [hdone.2]
  omega

/-- Witness for the amended C4 at the concrete one-byte run, slot 5. -/
theorem c4_witness : wst.filesExist 5 = false :=
  c4_amended wS 1 (4 * PAGESZ) true wOs wst wst_run (by decide) (by decide) 5
    (by decide)

/-! ### C5: unknown option flag -/

/-- The spec's statement: an unknown option flag exits 1, prints the usage
line, and writes nothing to stdout. -/
def usageClaim : Prop :=
  ∀ (c : Char) (cs : List Char), ('-' :: c :: cs) ≠ ['-', '-'] →
    (mainArgs [('-' :: c :: cs)]).exit = some 1 ∧
    (mainArgs [('-' :: c :: cs)]).usagePrinted = true ∧
    (mainArgs [('-' :: c :: cs)]).stdoutBytes = 0

/-- C5 (refuted): `petabuf -x` exits 1 but does NOT print the usage line —
the `getopt` failure branch (line 92-93) returns 1 silently; the usage
line is printed only for leftover positional arguments (lines 94-97). -/
theorem c5_counterexample : ¬ usageClaim := fun h =>
  absurd (h 'x' [] (by decide)).2.1 (by decide)

/-- C5 (amended): an unknown option flag exits with status 1, without the
usage line, and with nothing written to stdout. -/
theorem c5_amended : ∀ (c : Char) (cs : List Char),
    ('-' :: c :: cs) ≠ ['-', '-'] →
    (mainArgs [('-' :: c :: cs)]).exit = some 1 ∧
    (mainArgs [('-' :: c :: cs)]).usagePrinted = false ∧
    (mainArgs [('-' :: c :: cs)]).stdoutBytes = 0 := by
  intro c cs hne
  have hg : (getoptFirst [('-' :: c :: cs)]).1 = 63 := by
    simp only [getoptFirst]
    rw [if_neg hne]
  simp only [mainArgs, hg]
  exact ⟨rfl, rfl, rfl⟩

/-- Witness for the amended C5 at the concrete argument `-x`. -/
theorem c5_witness :
    (mainArgs [['-', 'x']]).exit = some 1 ∧
    (mainArgs [['-', 'x']]).usagePrinted = false ∧
    (mainArgs [['-', 'x']]).stdoutBytes = 0 :=
  c5_amended 'x' [] (by decide)

/-! ### C9: the page_free assertion -/

/-- C9: the assertion in `page_free` that a disk-backed slot is not mapped
never fires from the main loop: no iteration from a reachable boundary
aborts with it, and after the `page_unpin` the loop performs on the drain
index right before `page_free`, the slot is never both ON_DISK and
MAPPED. -/
theorem c9_free_assert_safe : ∀ (S : Nat → Nat) (slen memsize : Nat)
    (a0 : Bool) (st : St), Reachable S slen memsize a0 st →
    ((∀ o, iter S slen o st ≠ .error .assertFreeMapped) ∧
     (∀ st', page_unpin st.wpos.idx st = .ok st' →
        ¬(st'.states st.wpos.idx &&& PAGE_ONDISK ≠ 0 ∧
          st'.states st.wpos.idx &&& PAGE_MAPPED ≠ 0))) := by
  intro S slen memsize a0 st h
  have hI := reachable_inv h
  have hC := hI.toInvC
  constructor
  · intro o hcon
    rcases iter_spec o hI with ⟨st', hok, -⟩ | herr
    · rw [hok] at hcon
      injection hcon
    · rw [herr] at hcon
      injection hcon with h'
      exact Err.noConfusion h'
  · intro st' hunp
    have hwr : st.wpos.idx ≤ st.rpos.idx := idx_le_of_pos_le hC.wr_le hC.roff_lt
    have hlt : st.wpos.idx < TABLESZ := lt_of_le_of_lt hwr hC.ridx_lt
    by_cases hm : st.states st.wpos.idx &&& PAGE_MAPPED ≠ 0
    · by_cases hd : st.states st.wpos.idx &&& PAGE_ONDISK ≠ 0
      · rw [page_unpin_disk hlt hm hd] at hunp
        injection hunp with h'
        subst h'
        rintro ⟨-, hm2⟩
        rw [show ({ st with
            states := updf st.states st.wpos.idx (st.states st.wpos.idx &&& 254),
            nmapped := st.nmapped - 1 } : St).states st.wpos.idx =
            st.states st.wpos.idx &&& 254 from updf_self _ _ _] at hm2
        exact hm2 (land254_mapped _ (hC.table.states_lt _))
      · rw [page_unpin_mem hlt hm (of_not_not hd)] at hunp
        injection hunp with h'
        subst h'
        rintro ⟨hd2, -⟩
        exact hd hd2
    · rw [page_unpin_unmapped hlt (of_not_not hm)] at hunp
      injection hunp with h'
      subst h'
      rintro ⟨-, hm2⟩
      exact hm hm2

/-- Witness for C9 at the concrete one-byte run: a full iteration from the
final boundary does not trip the assertion, and the unpin-then-free
precondition holds at the drain slot. -/
theorem c9_witness :
    iter wS 1 ⟨true, true, 1, 1, true, true⟩ wst ≠ .error .assertFreeMapped ∧
    ¬(wst.states wst.wpos.idx &&& PAGE_ONDISK ≠ 0 ∧
      wst.states wst.wpos.idx &&& PAGE_MAPPED ≠ 0) :=
  ⟨(c9_free_assert_safe wS 1 (4 * PAGESZ) true wst wst_reach).1
      ⟨true, true, 1, 1, true, true⟩,
   (c9_free_assert_safe wS 1 (4 * PAGESZ) true wst wst_reach).2 wst
      (page_unpin_mem (by decide) (by decide) (by decide))⟩

/-! ### C10: the drain crossing's unchecked pin index -/

/-- C10: at every reachable boundary both cursor indices are below
TABLESZ; whenever the drain index lags the intake index (the only case in
which the drain crossing can increment it), the incremented index is still
below TABLESZ; and no iteration aborts on the `idx < TABLESZ` assertion at
the top of `page_pin`. -/
theorem c10_pin_idx_safe : ∀ (S : Nat → Nat) (slen memsize : Nat)
    (a0 : Bool) (st : St), Reachable S slen memsize a0 st →
    (st.rpos.idx < TABLESZ ∧ st.wpos.idx < TABLESZ ∧
     (st.wpos.idx ≠ st.rpos.idx → st.wpos.idx + 1 < TABLESZ) ∧
     ∀ o, iter S slen o st ≠ .error .assertPinIdx) := by
  intro S slen memsize a0 st h
  have hI := reachable_inv h
  have hC := hI.toInvC
  have hwr : st.wpos.idx ≤ st.rpos.idx := idx_le_of_pos_le hC.wr_le hC.roff_lt
  have hrl := hC.ridx_lt
  refine ⟨hrl, lt_of_le_of_lt hwr hrl, fun hne => ?_, fun o hcon => ?_⟩
  · have : st.wpos.idx < st.rpos.idx := lt_of_le_of_ne hwr hne
    omega
  · rcases iter_spec o hI with ⟨st', hok, -⟩ | herr
    · rw [hok] at hcon
      injection hcon
    · rw [herr] at hcon
      injection hcon with h'
      exact Err.noConfusion h'

/-- Witness for C10 at the concrete one-byte run. -/
theorem c10_witness : wst.rpos.idx < TABLESZ ∧ wst.wpos.idx < TABLESZ ∧
    iter wS 1 ⟨true, true, 1, 1, true, true⟩ wst ≠ .error .assertPinIdx :=
  ⟨(c10_pin_idx_safe wS 1 (4 * PAGESZ) true wst wst_reach).1,
   (c10_pin_idx_safe wS 1 (4 * PAGESZ) true wst wst_reach).2.1,
   (c10_pin_idx_safe wS 1 (4 * PAGESZ) true wst wst_reach).2.2.2
      ⟨true, true, 1, 1, true, true⟩⟩

end Petabuf
